import Mathlib

/-!
Shallow embedding of the Coqui-Sing audio core, and proofs of the frozen
claims about it.

Covered source files:
* the recording-state-machine reducer (the Redux `audioSlice`:
  `src/unnamed/part_010`), embedded as a pure function
  `audioReducer : AudioSliceState → Action → AudioSliceState` together with
  the slice's initial state and the `can…` guard helpers;
* the pitch-detection pipeline (`pitchDetection.ts`, concatenated into
  `src/coqui-mentor-web/src/utils/recordingStorage.ts`): the smoothing
  buffer, `normalizeBuffer`, `autocorrelate`, `findPeak`,
  `parabolicInterpolation`, `detectPitch`, `detectPitchWithSensitivity`;
* the spectral metrics (`fftAnalysis.ts`, same concatenated file):
  `getVolume`;
* the note mapping (`src/coqui-mentor-web/src/utils/audio/frequency.ts`):
  `frequencyToNote`, `noteToFrequency`.

JavaScript numbers are embedded as real numbers (the code's arithmetic is
floating point; `Math.sqrt`, `Math.log2`, `Math.log10` become `Real.sqrt`
and `Real.logb`); `Math.floor` becomes `Int.floor`, `Math.round x`
(half-up) becomes Mathlib's `round` (`⌊x + 1/2⌋`), and the JS `%` on
integers (truncated remainder) becomes `Int.tmod`.  Mutable module state
(the global smoothing buffer, the Redux store) is passed explicitly.

The numeric constants imported from `audio/constants.ts`
(`MIN_FREQUENCY`, `MAX_FREQUENCY`, `MIN_CONFIDENCE_THRESHOLD`,
`PITCH_SMOOTHING_BUFFER_SIZE`, `NOTE_NAMES`, `NOTE_FREQUENCIES`,
`A4_FREQUENCY`, `SEMITONES_PER_OCTAVE`, `CENTS_PER_OCTAVE`) come from a
file that is not among the repository's files; they are modelled from the
spec — see `PitchConfig`, `NOTE_NAMES`, `NOTE_FREQUENCIES` below.
-/

namespace CoquiSing

/-! ## Data model of the recording state machine (types/audio.types.ts) -/

/-- Status enumeration `AudioState` of types/audio.types.ts. -/
inductive AudioState
  | idle
  | initializing
  | recording
  | analyzing
  | paused
  | error
  deriving DecidableEq, Repr

/-- Pitch data as stored by the slice (types/audio.types.ts `PitchData`);
numbers are modelled as rationals here since the reducer only stores them. -/
structure StorePitchData where
  frequency : ℚ
  note : String
  cents : ℚ
  confidence : ℚ
  timestamp : ℤ
  deriving DecidableEq, Repr

/-- Vibrato sub-record of `AudioMetrics`. -/
structure Vibrato where
  rate : ℚ
  depth : ℚ
  deriving DecidableEq, Repr

/-- The `AudioMetrics` of types/audio.types.ts. -/
structure AudioMetrics where
  pitch : StorePitchData
  volume : ℚ
  clarity : ℚ
  vibrato : Vibrato
  formants : List ℚ
  deriving DecidableEq, Repr

/-- Pitch section of `AnalysisFeedback`. -/
structure PitchFeedback where
  accuracy : ℚ
  avgDeviation : ℚ
  suggestions : List String
  deriving DecidableEq, Repr

/-- Tone section of `AnalysisFeedback`. -/
structure ToneFeedback where
  quality : ℚ
  consistency : ℚ
  suggestions : List String
  deriving DecidableEq, Repr

/-- Technique section of `AnalysisFeedback`. -/
structure TechniqueFeedback where
  breath : ℚ
  resonance : ℚ
  suggestions : List String
  deriving DecidableEq, Repr

/-- The `AnalysisFeedback` of types/audio.types.ts. -/
structure AnalysisFeedback where
  pitch : PitchFeedback
  tone : ToneFeedback
  technique : TechniqueFeedback
  deriving DecidableEq, Repr

/-- The `VocalAnalysis` of types/audio.types.ts (the session's analysis result). -/
structure VocalAnalysis where
  id : String
  userId : String
  timestamp : ℤ
  metrics : AudioMetrics
  score : ℚ
  feedback : AnalysisFeedback
  deriving DecidableEq, Repr

/-- Browser `Blob`: an opaque binary payload; the reducer only stores it,
never inspects it, so it is modelled as a MIME type plus raw bytes. -/
structure Blob where
  type : String
  data : List ℕ
  deriving DecidableEq, Repr

/-- The `RecordingSession` of types/audio.types.ts. -/
structure RecordingSession where
  id : String
  startTime : ℤ
  duration : ℤ
  audioBlob : Option Blob
  analysis : Option VocalAnalysis
  deriving DecidableEq, Repr

/-- Browser `MediaDeviceInfo`, restricted to the fields the slice reads. -/
structure MediaDeviceInfo where
  deviceId : String
  kind : String
  label : String
  deriving DecidableEq, Repr

/-- The `AudioSettings` of types/audio.types.ts. -/
structure AudioSettings where
  sampleRate : ℚ
  bufferSize : ℚ
  fftSize : ℚ
  channelCount : ℚ
  echoCancellation : Bool
  noiseSuppression : Bool
  autoGainControl : Bool
  deriving DecidableEq, Repr

/-- Partial settings for `updateSettings` (TS `Partial<AudioSettings>`):
every field optional, merged over the current settings by object spread. -/
structure PartialAudioSettings where
  sampleRate : Option ℚ := none
  bufferSize : Option ℚ := none
  fftSize : Option ℚ := none
  channelCount : Option ℚ := none
  echoCancellation : Option Bool := none
  noiseSuppression : Option Bool := none
  autoGainControl : Option Bool := none
  deriving DecidableEq, Repr

/-- Spread-merge `{ ...settings, ...partial }` of `updateSettings`. -/
def mergeSettings (s : AudioSettings) (p : PartialAudioSettings) : AudioSettings where
  sampleRate := p.sampleRate.getD s.sampleRate
  bufferSize := p.bufferSize.getD s.bufferSize
  fftSize := p.fftSize.getD s.fftSize
  channelCount := p.channelCount.getD s.channelCount
  echoCancellation := p.echoCancellation.getD s.echoCancellation
  noiseSuppression := p.noiseSuppression.getD s.noiseSuppression
  autoGainControl := p.autoGainControl.getD s.autoGainControl

/-- The `DeviceState` of the slice. -/
structure DeviceState where
  available : List MediaDeviceInfo
  selected : Option String
  deriving DecidableEq, Repr

/-- The `AudioSliceState` of the slice (part_010 lines 19–28). -/
structure AudioSliceState where
  status : AudioState
  isRecording : Bool
  isPaused : Bool
  currentSession : Option RecordingSession
  audioSettings : AudioSettings
  currentMetrics : Option AudioMetrics
  error : Option String
  devices : DeviceState
  deriving DecidableEq, Repr

/-- The `DEFAULT_AUDIO_SETTINGS` of utils/constants.ts. -/
def defaultAudioSettings : AudioSettings where
  sampleRate := 44100
  bufferSize := 4096
  fftSize := 2048
  channelCount := 1
  echoCancellation := true
  noiseSuppression := true
  autoGainControl := true

/-- The `initialState` of the slice (part_010 lines 57–69). -/
def initialState : AudioSliceState where
  status := .idle
  isRecording := false
  isPaused := false
  currentSession := none
  audioSettings := defaultAudioSettings
  currentMetrics := none
  error := none
  devices := { available := [], selected := none }

/-- Guard helper `canInitialize` (part_010 line 31). -/
abbrev canInitialize (status : AudioState) : Prop :=
  status = .idle ∨ status = .error

/-- Guard helper `canStartRecording` (part_010 line 35). -/
abbrev canStartRecording (status : AudioState) : Prop :=
  status = .idle

/-- Guard helper `canPauseRecording` (part_010 line 39). -/
abbrev canPauseRecording (status : AudioState) : Prop :=
  status = .recording

/-- Guard helper `canResumeRecording` (part_010 line 43). -/
abbrev canResumeRecording (status : AudioState) : Prop :=
  status = .paused

/-- Guard helper `canStopRecording` (part_010 line 47). -/
abbrev canStopRecording (status : AudioState) : Prop :=
  status = .recording ∨ status = .paused

/-- Guard helper `canAnalyze` (part_010 line 51). -/
abbrev canAnalyze (status : AudioState) : Prop :=
  status = .recording ∨ status = .paused

/-- Status rendered into the warning strings (template `${state.status}`). -/
def statusString : AudioState → String
  | .idle => "idle"
  | .initializing => "initializing"
  | .recording => "recording"
  | .analyzing => "analyzing"
  | .paused => "paused"
  | .error => "error"

/-- JS `payload || fallback`: `undefined` and the empty string are falsy. -/
def orFalsy (payload : Option String) (fallback : String) : String :=
  match payload with
  | none => fallback
  | some s => if s = "" then fallback else s

/-- Every action the slice handles.  The synchronous reducers of
`audioSlice.reducers` come first; the `extraReducers` cases for the three
async thunks follow as discrete pending/fulfilled/rejected events.
`Date.now()` is passed in as the `now` payload where the code reads it. -/
inductive Action
  | initializeAction
  | initializeSuccess
  | initializeError (msg : String)
  | startRecording (sessionId : String) (now : ℤ)
  | pauseRecording
  | resumeRecording
  | stopRecording (duration : ℤ) (audioBlob : Option Blob)
  | updateMetrics (m : AudioMetrics)
  | updateSessionDuration (d : ℤ)
  | setAnalysis (a : Option VocalAnalysis)
  | startAnalysis
  | setDevices (ds : List MediaDeviceInfo)
  | selectDevice (id : String)
  | updateSettings (p : PartialAudioSettings)
  | resetSettings
  | setError (msg : String)
  | clearError
  | reset
  | resetSession
  | initializeAudioPending
  | initializeAudioFulfilled
  | initializeAudioRejected (msg : Option String)
  | fetchAudioDevicesPending
  | fetchAudioDevicesFulfilled (ds : List MediaDeviceInfo)
  | fetchAudioDevicesRejected
  | analyzeRecordingPending
  | analyzeRecordingFulfilled (a : Option VocalAnalysis)
  | analyzeRecordingRejected (msg : Option String)

/-- The `setDevices` / `fetchAudioDevices.fulfilled` shared body: store the list
and select the first device when none is selected yet. -/
def applyDevices (s : AudioSliceState) (ds : List MediaDeviceInfo) : AudioSliceState :=
  let s' := { s with devices := { s.devices with available := ds } }
  match ds, s.devices.selected with
  | d :: _, none => { s' with devices := { s'.devices with selected := some d.deviceId } }
  | _, _ => s'

/-- The slice's reducer, one case per action, each a direct translation of
the corresponding reducer in part_010 (early `return`s become nested
`if … then unchanged/partial-update else …`). -/
def audioReducer (s : AudioSliceState) : Action → AudioSliceState
  | .initializeAction =>
      if canInitialize s.status then
        { s with status := .initializing, error := none }
      else s
  | .initializeSuccess =>
      if s.status = .initializing then
        { s with status := .idle, error := none }
      else s
  | .initializeError msg =>
      if s.status = .initializing then
        { s with status := .error, error := some msg }
      else s
  | .startRecording sessionId now =>
      if ¬ canStartRecording s.status then
        { s with error := some ("Cannot start recording: current state is "
            ++ statusString s.status) }
      else if s.isRecording then
        { s with error := some "Already recording" }
      else
        { s with
            status := .recording
            isRecording := true
            isPaused := false
            currentSession := some
              { id := sessionId
                startTime := now
                duration := 0
                audioBlob := none
                analysis := none }
            error := none }
  | .pauseRecording =>
      if ¬ canPauseRecording s.status then
        { s with error := some ("Cannot pause: current state is "
            ++ statusString s.status) }
      else if ¬ s.isRecording then
        { s with error := some "Not currently recording" }
      else if s.isPaused then
        { s with error := some "Already paused" }
      else
        { s with status := .paused, isPaused := true }
  | .resumeRecording =>
      if ¬ canResumeRecording s.status then
        { s with error := some ("Cannot resume: current state is "
            ++ statusString s.status) }
      else if ¬ s.isPaused then
        { s with error := some "Not currently paused" }
      else
        { s with status := .recording, isPaused := false }
  | .stopRecording duration audioBlob =>
      if ¬ canStopRecording s.status then
        { s with error := some ("Cannot stop recording: current state is "
            ++ statusString s.status) }
      else if ¬ s.isRecording then
        { s with error := some "Not currently recording" }
      else
        { s with
            status := .analyzing
            isRecording := false
            isPaused := false
            currentSession := s.currentSession.map fun sess =>
              { sess with duration := duration, audioBlob := audioBlob } }
  | .updateMetrics m =>
      if s.status ≠ .recording ∧ s.status ≠ .paused then s
      else { s with currentMetrics := some m }
  | .updateSessionDuration d =>
      match s.currentSession with
      | none => s
      | some sess =>
          if s.status ≠ .recording ∧ s.status ≠ .paused then s
          else { s with currentSession := some { sess with duration := d } }
  | .setAnalysis a =>
      if s.status ≠ .analyzing then s
      else
        match s.currentSession with
        | none => { s with status := .idle }
        | some sess =>
            { s with
                currentSession := some { sess with analysis := a }
                status := .idle }
  | .startAnalysis =>
      if ¬ canAnalyze s.status then
        { s with error := some ("Cannot analyze: current state is "
            ++ statusString s.status) }
      else
        match s.currentSession with
        | none => { s with error := some "No active recording session" }
        | some _ =>
            { s with status := .analyzing, isRecording := false, isPaused := false }
  | .setDevices ds => applyDevices s ds
  | .selectDevice id =>
      { s with devices := { s.devices with selected := some id } }
  | .updateSettings p =>
      { s with audioSettings := mergeSettings s.audioSettings p }
  | .resetSettings =>
      { s with audioSettings := defaultAudioSettings }
  | .setError msg =>
      { s with status := .error, error := some msg, isRecording := false,
               isPaused := false }
  | .clearError =>
      let s' := { s with error := none }
      if s'.status = .error then { s' with status := .idle } else s'
  | .reset =>
      { s with status := .idle, isRecording := false, isPaused := false,
               currentSession := none, currentMetrics := none, error := none }
  | .resetSession =>
      { s with currentSession := none, currentMetrics := none,
               isRecording := false, isPaused := false, status := .idle }
  | .initializeAudioPending =>
      if ¬ canInitialize s.status then s
      else { s with status := .initializing, error := none }
  | .initializeAudioFulfilled =>
      if s.status ≠ .initializing then s
      else { s with status := .idle, error := none }
  | .initializeAudioRejected msg =>
      if s.status ≠ .initializing then s
      else { s with status := .error,
                    error := some (orFalsy msg "Failed to initialize audio") }
  | .fetchAudioDevicesPending => s
  | .fetchAudioDevicesFulfilled ds => applyDevices s ds
  | .fetchAudioDevicesRejected => s
  | .analyzeRecordingPending => s
  | .analyzeRecordingFulfilled a =>
      if s.status ≠ .analyzing then s
      else
        match s.currentSession with
        | none => { s with status := .idle }
        | some sess =>
            { s with
                currentSession := some { sess with analysis := a }
                status := .idle }
  | .analyzeRecordingRejected msg =>
      if s.status ≠ .analyzing then s
      else { s with status := .error,
                    error := some (orFalsy msg "Failed to analyze recording") }

/-- States reachable from the slice's initial state by any action sequence. -/
inductive Reachable : AudioSliceState → Prop
  | init : Reachable initialState
  | step {s : AudioSliceState} (a : Action) : Reachable s → Reachable (audioReducer s a)

/-- True exactly for the user-triggered actions named by the spec's
transition table (initialize, initializeSuccess, initializeError,
startRecording, pause, resume, stop, updateMetrics,
setAnalysis/analysisSucceeded, clearError). -/
def isUserAction : Action → Prop
  | .initializeAction => True
  | .initializeSuccess => True
  | .initializeError _ => True
  | .startRecording _ _ => True
  | .pauseRecording => True
  | .resumeRecording => True
  | .stopRecording _ _ => True
  | .updateMetrics _ => True
  | .setAnalysis _ => True
  | .clearError => True
  | _ => False

/-- The guard of each user-triggered action, as the spec's transition table
states it (column "Requires"); actions outside the table are unguarded. -/
def guardOf : Action → AudioSliceState → Prop
  | .initializeAction, s => s.status = .idle ∨ s.status = .error
  | .initializeSuccess, s => s.status = .initializing
  | .initializeError _, s => s.status = .initializing
  | .startRecording _ _, s => s.status = .idle ∧ s.isRecording = false
  | .pauseRecording, s => s.status = .recording
  | .resumeRecording, s => s.status = .paused
  | .stopRecording _ _, s => s.status = .recording ∨ s.status = .paused
  | .updateMetrics _, s => s.status = .recording ∨ s.status = .paused
  | .setAnalysis _, s => s.status = .analyzing
  | .clearError, s => s.status = .error
  | _, _ => True

/-! ## Pitch-detection pipeline (pitchDetection.ts, inside recordingStorage.ts)

The detector's numeric constants (`MIN_FREQUENCY`, `MAX_FREQUENCY`,
`MIN_CONFIDENCE_THRESHOLD`, `PITCH_SMOOTHING_BUFFER_SIZE`) are imported
from `audio/constants.ts`, which is not among the repository's files; they
are gathered into a `PitchConfig` parameter so that the structural claims
are settled for every configuration. -/

/-- Modelled from the spec: the detector's configuration constants of the
missing `audio/constants.ts` (`minFrequencyHz`, `maxFrequencyHz`,
`confidenceThresholds`, `smoothingBufferSize` of §6), passed as a
parameter to each pipeline function. -/
structure PitchConfig where
  minFrequency : ℝ
  maxFrequency : ℝ
  minConfidenceThreshold : ℝ
  smoothingBufferSize : ℕ

noncomputable section

open scoped Classical

/-- The `PitchSmoothingBuffer.add`: push, then `shift()` (drop the oldest,
i.e. the head) when the length exceeds `maxSize`. -/
def bufferAdd (maxSize : ℕ) (buffer : List ℝ) (f : ℝ) : List ℝ :=
  let b := buffer ++ [f]
  if maxSize < b.length then b.tail else b

/-- The `PitchSmoothingBuffer.getSmoothed`: 0 on an empty buffer, else the
arithmetic mean of the buffered frequencies. -/
def bufferSmoothed (buffer : List ℝ) : ℝ :=
  if buffer.length = 0 then 0 else buffer.sum / buffer.length

/-- Maximum absolute sample value, as the first loop of `normalizeBuffer`
computes it (`max` starts at 0). -/
def maxAbs (l : List ℝ) : ℝ := l.foldl (fun m x => max m |x|) 0

/-- The `normalizeBuffer`: scale by the peak absolute value when it is
positive; otherwise the freshly allocated all-zero array is returned. -/
def normalizeBuffer (l : List ℝ) : List ℝ :=
  if 0 < maxAbs l then l.map fun x => x / maxAbs l
  else l.map fun _ => 0

/-- One autocorrelation lag: `Σ_{i<size−lag} b[i]·b[i+lag]`, written as the
dot product of the buffer with its `lag`-shifted self. -/
def dotDrop (b : List ℝ) (lag : ℕ) : ℝ :=
  ((b.zip (b.drop lag)).map fun p => p.1 * p.2).sum

/-- The `Math.floor(sampleRate / MIN_FREQUENCY)`, the number of lags computed. -/
def maxSamples (cfg : PitchConfig) (sampleRate : ℝ) : ℕ :=
  (⌊sampleRate / cfg.minFrequency⌋).toNat

/-- The `Math.floor(sampleRate / MAX_FREQUENCY)`, the first lag scanned. -/
def minSamples (cfg : PitchConfig) (sampleRate : ℝ) : ℕ :=
  (⌊sampleRate / cfg.maxFrequency⌋).toNat

/-- The `autocorrelate`: the autocorrelation value for each lag below
`maxSamples`. -/
def autocorrelate (cfg : PitchConfig) (b : List ℝ) (sampleRate : ℝ) : List ℝ :=
  (List.range (maxSamples cfg sampleRate)).map fun lag => dotDrop b lag

/-- First index in the list whose autocorrelation value is negative
(the zero-crossing scan of `findPeak`). -/
def firstNeg (ac : List ℝ) : List ℕ → Option ℕ
  | [] => none
  | i :: rest => if ac.getD i 0 < 0 then some i else firstNeg ac rest

/-- The `zeroCrossing` local of `findPeak`: the first lag in
`[minS, maxS)` where the autocorrelation goes negative, `minS` if none. -/
def zeroCrossing (ac : List ℝ) (minS maxS : ℕ) : ℕ :=
  (firstNeg ac (List.range' minS (maxS - minS))).getD minS

/-- The loop condition of `findPeak`'s peak scan at index `i`:
`ac[i] > ac[i−1] ∧ ac[i] > ac[i+1]` (a strict local maximum). -/
def LocalMax (ac : List ℝ) (i : ℕ) : Prop :=
  ac.getD (i - 1) 0 < ac.getD i 0 ∧ ac.getD (i + 1) 0 < ac.getD i 0

/-- One iteration of `findPeak`'s scan loop: take index `i` as the new
best peak when it is a strict local maximum whose value beats the best so
far (`peakValue` starts at `-Infinity`, so an absent state always loses). -/
def peakStep (ac : List ℝ) (st : Option (ℕ × ℝ)) (i : ℕ) : Option (ℕ × ℝ) :=
  match st with
  | none =>
      if ac.getD (i - 1) 0 < ac.getD i 0 ∧ ac.getD (i + 1) 0 < ac.getD i 0 then
        some (i, ac.getD i 0)
      else none
  | some (j, pv) =>
      if ac.getD (i - 1) 0 < ac.getD i 0 ∧ ac.getD (i + 1) 0 < ac.getD i 0 ∧
          pv < ac.getD i 0 then
        some (i, ac.getD i 0)
      else some (j, pv)

/-- The `findPeak`: zero-crossing scan from `minSamples`, then the peak scan
over `[zeroCrossing, maxSamples−1)`; the returned confidence is the peak
value over the zero-lag autocorrelation (0 when the latter is not
positive), `null` when no peak was found. -/
def findPeak (cfg : PitchConfig) (ac : List ℝ) (sampleRate : ℝ) :
    Option (ℕ × ℝ) :=
  let minS := minSamples cfg sampleRate
  let maxS := maxSamples cfg sampleRate
  let zc := zeroCrossing ac minS maxS
  match (List.range' zc (maxS - 1 - zc)).foldl (peakStep ac) none with
  | none => none
  | some (peakIndex, peakValue) =>
      some (peakIndex,
            if 0 < ac.getD 0 0 then peakValue / ac.getD 0 0 else 0)

/-- The `parabolicInterpolation`: fractional peak position from the three
correlation values around the integer peak; the index itself at the array
edges. -/
def parabolicInterpolation (ac : List ℝ) (peakIndex : ℕ) : ℝ :=
  if peakIndex = 0 ∨ ac.length - 1 ≤ peakIndex then peakIndex
  else
    let y0 := ac.getD (peakIndex - 1) 0
    let y1 := ac.getD peakIndex 0
    let y2 := ac.getD (peakIndex + 1) 0
    peakIndex + 0.5 * (y0 - y2) / (y0 - 2 * y1 + y2)

/-- Root-mean-square of the window, as `detectPitch` computes it. -/
def pitchRms (buffer : List ℝ) : ℝ :=
  Real.sqrt ((buffer.map fun x => x * x).sum / buffer.length)

/-! ## Note mapping (audio/frequency.ts) -/

/-- The `NoteData` of audio/frequency.ts; `cents` is integral because the code
passes it through `Math.round`. -/
structure NoteData where
  note : String
  cents : ℤ
  frequency : ℝ
  octave : ℤ

/-- Modelled from the spec: `NOTE_NAMES` of the missing
`audio/constants.ts` — the chromatic scale in sharps, anchored so that
`A` sits at index 9 as the code's comment states. -/
def NOTE_NAMES : List String :=
  ["C", "C#", "D", "D#", "E", "F"] ++ ["F#", "G", "G#", "A", "A#", "B"]

/-- Note-name construction of `frequencyToNote` for a semitone offset `n`
from A4: chromatic index `(9 + n) % 12` (JS truncated remainder,
normalized to be non-negative) and octave `4 + ⌊(9 + n) / 12⌋`. -/
def noteNameOf (nearestSemitone : ℤ) : String :=
  let noteIndex : ℤ := Int.tmod (9 + nearestSemitone) 12
  let normalizedNoteIndex : ℤ :=
    if 0 ≤ noteIndex then noteIndex else noteIndex + 12
  let octave : ℤ := 4 + Int.fdiv (9 + nearestSemitone) 12
  (NOTE_NAMES.getD normalizedNoteIndex.toNat "") ++ toString octave

/-- The `frequencyToNote` of audio/frequency.ts: semitone offset
`12·log₂(f/440)` from A4, rounded to the nearest note, with the fractional
remainder scaled to cents. -/
def frequencyToNote (frequency : ℝ) : NoteData :=
  let semitonesFromA4 : ℝ := 12 * Real.logb 2 (frequency / 440)
  let nearestSemitone : ℤ := round semitonesFromA4
  { note := noteNameOf nearestSemitone
    cents := round ((semitonesFromA4 - (nearestSemitone : ℝ)) * 100)
    frequency := frequency
    octave := 4 + Int.fdiv (9 + nearestSemitone) 12 }

/-- Modelled from the spec: the `NOTE_FREQUENCIES` table of the missing
`audio/constants.ts` — equal-temperament frequencies (A4 = 440 Hz) rounded
to two decimals, C2 through C6, exactly as the copy of the table kept in
the in-repository visualizer (src/unnamed/part_004) lists them; each
two-decimal value x.yz is written as the rational `mkRat xyz 100`. -/
def NOTE_FREQUENCIES : List (String × ℚ) :=
  [("C2", mkRat 6541 100), ("C#2", mkRat 6930 100), ("D2", mkRat 7342 100),
   ("D#2", mkRat 7778 100), ("E2", mkRat 8241 100), ("F2", mkRat 8731 100),
   ("F#2", mkRat 9250 100), ("G2", mkRat 9800 100), ("G#2", mkRat 10383 100),
   ("A2", mkRat 11000 100), ("A#2", mkRat 11654 100), ("B2", mkRat 12347 100),
   ("C3", mkRat 13081 100), ("C#3", mkRat 13859 100), ("D3", mkRat 14683 100),
   ("D#3", mkRat 15556 100), ("E3", mkRat 16481 100), ("F3", mkRat 17461 100),
   ("F#3", mkRat 18500 100), ("G3", mkRat 19600 100), ("G#3", mkRat 20765 100),
   ("A3", mkRat 22000 100), ("A#3", mkRat 23308 100), ("B3", mkRat 24694 100),
   ("C4", mkRat 26163 100), ("C#4", mkRat 27718 100), ("D4", mkRat 29366 100),
   ("D#4", mkRat 31113 100), ("E4", mkRat 32963 100), ("F4", mkRat 34923 100),
   ("F#4", mkRat 36999 100), ("G4", mkRat 39200 100), ("G#4", mkRat 41530 100),
   ("A4", mkRat 44000 100), ("A#4", mkRat 46616 100), ("B4", mkRat 49388 100),
   ("C5", mkRat 52325 100), ("C#5", mkRat 55437 100), ("D5", mkRat 58733 100),
   ("D#5", mkRat 62225 100), ("E5", mkRat 65925 100), ("F5", mkRat 69846 100),
   ("F#5", mkRat 73999 100), ("G5", mkRat 78399 100), ("G#5", mkRat 83061 100),
   ("A5", mkRat 88000 100), ("A#5", mkRat 93233 100), ("B5", mkRat 98777 100),
   ("C6", mkRat 104650 100)]

/-- The `noteToFrequency` of audio/frequency.ts: table lookup, absent for an
unknown note name. -/
def noteToFrequency (note : String) : Option ℝ :=
  match NOTE_FREQUENCIES.find? fun p => p.1 == note with
  | some p => some (p.2 : ℝ)
  | none => none

/-! ## detectPitch and its sensitivity wrapper -/

/-- The `PitchData` of pitchDetection.ts: `NoteData` plus confidence and
timestamp (`Date.now()` is passed in as `now`). -/
structure PitchData where
  note : String
  cents : ℤ
  frequency : ℝ
  octave : ℤ
  confidence : ℝ
  timestamp : ℤ

/-- The `detectPitch`: the per-tick pipeline.  The module-global smoothing
buffer is passed in and the updated buffer is returned alongside the
result. -/
def detectPitch (cfg : PitchConfig) (buffer : List ℝ) (sampleRate : ℝ)
    (enableSmoothing : Bool) (now : ℤ) (smoothing : List ℝ) :
    Option PitchData × List ℝ :=
  if pitchRms buffer < 0.01 then
    (none, if enableSmoothing then [] else smoothing)
  else
    let normalized := normalizeBuffer buffer
    let ac := autocorrelate cfg normalized sampleRate
    match findPeak cfg ac sampleRate with
    | none => (none, if enableSmoothing then [] else smoothing)
    | some (peakIndex, confidence) =>
        if confidence < cfg.minConfidenceThreshold then
          (none, if enableSmoothing then [] else smoothing)
        else
          let interpolatedIndex := parabolicInterpolation ac peakIndex
          let rawFrequency := sampleRate / interpolatedIndex
          let smoothing1 :=
            if enableSmoothing then
              bufferAdd cfg.smoothingBufferSize smoothing rawFrequency
            else smoothing
          let frequency :=
            if enableSmoothing then bufferSmoothed smoothing1 else rawFrequency
          if frequency < cfg.minFrequency ∨ cfg.maxFrequency < frequency then
            (none, if enableSmoothing then [] else smoothing1)
          else
            let nd := frequencyToNote frequency
            (some { note := nd.note, cents := nd.cents,
                    frequency := nd.frequency, octave := nd.octave,
                    confidence := min confidence 1, timestamp := now },
             smoothing1)

/-- The three caller-selectable sensitivity levels. -/
inductive Sensitivity
  | low
  | medium
  | high
  deriving DecidableEq, Repr

/-- The `thresholds` table of `detectPitchWithSensitivity`. -/
def sensitivityThreshold : Sensitivity → ℝ
  | .low => 0.85
  | .medium => 0.7
  | .high => 0.5

/-- The `detectPitchWithSensitivity`: run `detectPitch` with smoothing
enabled, then drop the result when its confidence is below the selected
sensitivity threshold. -/
def detectPitchWithSensitivity (cfg : PitchConfig) (buffer : List ℝ)
    (sampleRate : ℝ) (sensitivity : Sensitivity) (now : ℤ)
    (smoothing : List ℝ) : Option PitchData × List ℝ :=
  let r := detectPitch cfg buffer sampleRate true now smoothing
  match r.1 with
  | none => (none, r.2)
  | some result =>
      if result.confidence < sensitivityThreshold sensitivity then (none, r.2)
      else (some result, r.2)

/-! ## Spectral metrics (fftAnalysis.ts): getVolume -/

/-- Sum of squared byte magnitudes normalized to `[0,1]` by 255, as
`getVolume`'s loop accumulates it. -/
def byteSumSquares (buffer : List ℕ) : ℝ :=
  (buffer.map fun (b : ℕ) => ((b : ℝ) / 255) * ((b : ℝ) / 255)).sum

/-- The RMS value `getVolume` computes from a magnitude byte buffer. -/
def rmsOfBytes (buffer : List ℕ) : ℝ :=
  Real.sqrt (byteSumSquares buffer / buffer.length)

/-- The `getVolume` of fftAnalysis.ts: `-100` for an empty buffer or zero RMS,
else `20·log₁₀(rms)` clamped to `[-100, 0]`. -/
def getVolume (buffer : List ℕ) : ℝ :=
  if buffer.length = 0 then -100
  else if rmsOfBytes buffer = 0 then -100
  else max (-100) (min 0 (20 * Real.logb 10 (rmsOfBytes buffer)))

/-! ## Constants of claim C9, and concrete evaluation inputs -/

/-- Modelled from the spec: `MIN_FREQUENCY` of the missing
`audio/constants.ts` (spec §4.3: a configured band of "roughly 80–1050
Hz, covering typical vocal range"). -/
def MIN_FREQUENCY : ℝ := 80

/-- Modelled from the spec: `MAX_FREQUENCY` of the missing
`audio/constants.ts` (spec §4.3, same band). -/
def MAX_FREQUENCY : ℝ := 1050

/-- The equal-temperament semitone ratio `2^(1/12)`. -/
def semitoneRatio : ℝ := (2 : ℝ) ^ ((1 : ℝ) / 12)

/-- The quarter-semitone ratio `2^(1/24)`; `semitoneRatio` is its square,
and half-semitone intervals around a note are its odd integer powers. -/
def qtone : ℝ := (2 : ℝ) ^ ((1 : ℝ) / 24)

/-- Decidable per-note certificate for claim C9: the table entry for the
note name at semitone offset `n` from A4 exists, is positive, and lies
within half a semitone of the exact equal-temperament frequency
`440·2^(n/12)` — stated as the integer inequalities obtained by raising
`440·2^((2n∓1)/24) ≤ a/d ≤ 440·2^((2n±1)/24)` to the 24th power and
clearing denominators (both exponents are shifted by 61 so they stay
non-negative for `n ≥ -30`). -/
def noteCheck (n : ℤ) : Bool :=
  match NOTE_FREQUENCIES.find? fun p => p.1 == noteNameOf n with
  | none => false
  | some p =>
      let a := p.2.num.toNat
      let d := p.2.den
      decide (0 < p.2.num) &&
      decide (440 ^ 24 * 2 ^ (2 * n + 60).toNat * d ^ 24 ≤ a ^ 24 * 2 ^ 61) &&
      decide (a ^ 24 * 2 ^ 61 ≤ 440 ^ 24 * 2 ^ (2 * n + 62).toNat * d ^ 24)

/-- Concrete detector configuration used by the evaluation witnesses. -/
def cfgEx : PitchConfig :=
  { minFrequency := 1, maxFrequency := 4,
    minConfidenceThreshold := 1 / 2, smoothingBufferSize := 5 }

/-- A period-4 square-wave window of 8 samples at full scale. -/
def bufEx : List ℝ := [1, 1, -1, -1, 1, 1, -1, -1]

/-- The autocorrelation of `bufEx` at sample rate 8 under `cfgEx`. -/
def acEx : List ℝ := [8, 1, -6, -1, 4, 1, -2, -1]

/-- The pitch record `detectPitch` produces on `bufEx` at sample rate 8
under `cfgEx` with an empty smoothing buffer: raw frequency
`8 / (33/8) = 64/33`, confidence `1/2`. -/
def pEx : PitchData :=
  { note := (frequencyToNote (64 / 33)).note
    cents := (frequencyToNote (64 / 33)).cents
    frequency := 64 / 33
    octave := (frequencyToNote (64 / 33)).octave
    confidence := 1 / 2
    timestamp := 0 }

/-- State after `startRecording("s1")` from the initial state. -/
def stateRecordingEx : AudioSliceState :=
  audioReducer initialState (.startRecording "s1" 0)

/-- State after `startRecording` then `stopRecording(5000, null)`. -/
def stateAnalyzingEx : AudioSliceState :=
  audioReducer stateRecordingEx (.stopRecording 5000 none)

/-- State after `startRecording`, `stopRecording`, then `setAnalysis`. -/
def stateAfterAnalysisEx : AudioSliceState :=
  audioReducer stateAnalyzingEx (.setAnalysis none)

end

/-! ## Claims about the recording state machine -/

/-- C1: for every user-triggered action of the state machine and every
state that does not satisfy that action's guard (as the spec's transition
table states it), applying the action leaves the status and the current
session unchanged and never moves the machine to the `error` status; in
particular `pauseRecording` in `idle` keeps status `idle` with no session
created, and `startRecording` while already recording creates no second
session. -/
theorem userAction_noop_outside_guard (s : AudioSliceState) (a : Action)
    (hu : isUserAction a) (hg : ¬ guardOf a s) :
    (audioReducer s a).status = s.status ∧
    (audioReducer s a).currentSession = s.currentSession ∧
    ((audioReducer s a).status = .error → s.status = .error) := by
  cases a with
  | initializeAction =>
      simp only [guardOf] at hg
      simp [audioReducer, hg]
  | initializeSuccess =>
      simp only [guardOf] at hg
      simp [audioReducer, hg]
  | initializeError msg =>
      simp only [guardOf] at hg
      simp [audioReducer, hg]
  | startRecording sid now =>
      simp only [guardOf, not_and] at hg
      by_cases hst : s.status = .idle
      · have hrec : s.isRecording = true := by simpa using hg hst
        simp [audioReducer, canStartRecording, hst, hrec]
      · simp [audioReducer, canStartRecording, hst]
  | pauseRecording =>
      simp only [guardOf] at hg
      simp [audioReducer, canPauseRecording, hg]
  | resumeRecording =>
      simp only [guardOf] at hg
      simp [audioReducer, canResumeRecording, hg]
  | stopRecording d b =>
      simp only [guardOf] at hg
      simp [audioReducer, canStopRecording, hg]
  | updateMetrics m =>
      simp only [guardOf] at hg
      push_neg at hg
      simp [audioReducer, hg.1, hg.2]
  | setAnalysis a =>
      simp only [guardOf] at hg
      simp [audioReducer, hg]
  | clearError =>
      simp only [guardOf] at hg
      simp [audioReducer, hg]
  | setDevices ds => exact absurd hu (by simp [isUserAction])
  | selectDevice id => exact absurd hu (by simp [isUserAction])
  | updateSettings p => exact absurd hu (by simp [isUserAction])
  | resetSettings => exact absurd hu (by simp [isUserAction])
  | setError msg => exact absurd hu (by simp [isUserAction])
  | reset => exact absurd hu (by simp [isUserAction])
  | resetSession => exact absurd hu (by simp [isUserAction])
  | startAnalysis => exact absurd hu (by simp [isUserAction])
  | updateSessionDuration d => exact absurd hu (by simp [isUserAction])
  | initializeAudioPending => exact absurd hu (by simp [isUserAction])
  | initializeAudioFulfilled => exact absurd hu (by simp [isUserAction])
  | initializeAudioRejected msg => exact absurd hu (by simp [isUserAction])
  | fetchAudioDevicesPending => exact absurd hu (by simp [isUserAction])
  | fetchAudioDevicesFulfilled ds => exact absurd hu (by simp [isUserAction])
  | fetchAudioDevicesRejected => exact absurd hu (by simp [isUserAction])
  | analyzeRecordingPending => exact absurd hu (by simp [isUserAction])
  | analyzeRecordingFulfilled a => exact absurd hu (by simp [isUserAction])
  | analyzeRecordingRejected msg => exact absurd hu (by simp [isUserAction])

/-- C1 witness: `pauseRecording` invoked in the initial `idle` state is a
guarded no-op — status stays `idle`, no session appears, no error status. -/
theorem userAction_noop_outside_guard_witness :
    (audioReducer initialState .pauseRecording).status = initialState.status ∧
    (audioReducer initialState .pauseRecording).currentSession
      = initialState.currentSession ∧
    ((audioReducer initialState .pauseRecording).status = .error →
      initialState.status = .error) :=
  userAction_noop_outside_guard initialState .pauseRecording
    (by simp [isUserAction]) (by simp [guardOf, initialState])

/-- Single-step preservation of "an active status has a session":
auxiliary to claim C2's amended invariant. -/
lemma reducer_preserves_active_session (s : AudioSliceState) (a : Action)
    (ih : s.status = .recording ∨ s.status = .paused ∨ s.status = .analyzing →
      s.currentSession ≠ none) :
    (audioReducer s a).status = .recording ∨
      (audioReducer s a).status = .paused ∨
      (audioReducer s a).status = .analyzing →
    (audioReducer s a).currentSession ≠ none := by
  cases a <;>
    simp only [audioReducer, applyDevices] <;>
    (try split) <;> (try split) <;> (try split) <;> (try split) <;>
    intro h <;>
    simp_all [canInitialize, canStartRecording, canPauseRecording,
      canResumeRecording, canStopRecording, canAnalyze, Option.map_eq_none,
      initialState] <;>
    tauto

/-- C2 counterexample: after `startRecording`, `stopRecording`,
`setAnalysis` the machine is reachable, its status is `idle`, yet a
session still exists — so "a session exists iff status ∈
{recording, paused, analyzing}" fails on the code. -/
theorem session_iff_active_fails :
    Reachable stateAfterAnalysisEx ∧
    stateAfterAnalysisEx.status = .idle ∧
    stateAfterAnalysisEx.currentSession ≠ none :=
  ⟨.step _ (.step _ (.step _ .init)), by decide, by decide⟩

/-- C2 amended: in every reachable state, a session exists whenever the
status is `recording`, `paused` or `analyzing` (the converse fails: the
completed session survives into `idle` after analysis, and into `error`
after failures). -/
theorem reachable_active_has_session (s : AudioSliceState) (h : Reachable s)
    (hst : s.status = .recording ∨ s.status = .paused ∨ s.status = .analyzing) :
    s.currentSession ≠ none := by
  induction h with
  | init => simp [initialState] at hst
  | step a _ ih => exact reducer_preserves_active_session _ a ih hst

/-- C2 amended witness: the reachable state after `startRecording` is
`recording` and indeed carries a session. -/
theorem reachable_active_has_session_witness :
    stateRecordingEx.currentSession ≠ none :=
  reachable_active_has_session stateRecordingEx (.step _ .init)
    (by decide)

/-- C8: `analyzeRecording.rejected` arriving in the `analyzing` status
moves the machine to `error`, records the failure message, and leaves the
current session — its stamped duration and audio blob included —
unchanged. -/
theorem analyzeRejected_in_analyzing (s : AudioSliceState) (msg : Option String)
    (h : s.status = .analyzing) :
    (audioReducer s (.analyzeRecordingRejected msg)).status = .error ∧
    (audioReducer s (.analyzeRecordingRejected msg)).error
      = some (orFalsy msg "Failed to analyze recording") ∧
    (audioReducer s (.analyzeRecordingRejected msg)).currentSession
      = s.currentSession := by
  simp [audioReducer, h]

/-- C8 witness: the rejection event applied to the concrete `analyzing`
state reached by `startRecording` then `stopRecording`. -/
theorem analyzeRejected_in_analyzing_witness :
    (audioReducer stateAnalyzingEx
        (.analyzeRecordingRejected (some "boom"))).status = .error ∧
    (audioReducer stateAnalyzingEx
        (.analyzeRecordingRejected (some "boom"))).error
      = some (orFalsy (some "boom") "Failed to analyze recording") ∧
    (audioReducer stateAnalyzingEx
        (.analyzeRecordingRejected (some "boom"))).currentSession
      = stateAnalyzingEx.currentSession :=
  analyzeRejected_in_analyzing stateAnalyzingEx (some "boom") (by decide)

/-! ## Claims about the pitch detector -/

/-- Pushing into the smoothing buffer keeps the length within the maximum
size, since the oldest entry is dropped on overflow. -/
lemma bufferAdd_length_le (N : ℕ) (buf : List ℝ) (f : ℝ)
    (h : buf.length ≤ N) : (bufferAdd N buf f).length ≤ N := by
  simp only [bufferAdd]
  split <;> simp_all <;> omega

/-- Pushing into a full smoothing buffer drops exactly the oldest entry. -/
lemma bufferAdd_drop_oldest (N : ℕ) (buf : List ℝ) (f : ℝ)
    (hne : buf ≠ []) (h : N ≤ buf.length) :
    bufferAdd N buf f = buf.tail ++ [f] := by
  simp only [bufferAdd]
  rw [if_pos (by simp; omega)]
  cases buf with
  | nil => exact absurd rfl hne
  | cons a l => simp

/-- A just-pushed buffer is non-empty whenever the maximum size is
positive. -/
lemma bufferAdd_ne_nil (N : ℕ) (buf : List ℝ) (f : ℝ) (hN : 0 < N) :
    bufferAdd N buf f ≠ [] := by
  simp only [bufferAdd]
  split
  · rename_i hlt
    intro hc
    have h1 : (buf ++ [f]).tail.length = buf.length := by simp
    rw [hc] at h1
    simp only [List.length_nil] at h1
    simp only [List.length_append, List.length_cons, List.length_nil] at hlt
    omega
  · simp

/-- C6: any window whose RMS is below the 0.01 silence threshold — in
particular every all-zero window — makes `detectPitch` (with smoothing
enabled) return absent and leave the smoothing buffer empty. -/
theorem detectPitch_silence (cfg : PitchConfig) (buffer : List ℝ)
    (sampleRate : ℝ) (now : ℤ) (smoothing : List ℝ)
    (h : pitchRms buffer < 0.01) :
    detectPitch cfg buffer sampleRate true now smoothing = (none, []) := by
  unfold detectPitch
  rw [if_pos h]
  simp

/-- C6 witness: the all-zero four-sample window, on a non-empty smoothing
buffer. -/
theorem detectPitch_silence_witness :
    detectPitch cfgEx [0, 0, 0, 0] 8 true 0 [440] = (none, []) :=
  detectPitch_silence cfgEx [0, 0, 0, 0] 8 0 [440]
    (by norm_num [pitchRms])

/-- C10: with smoothing disabled, `detectPitch` never touches the shared
smoothing buffer on any path — no rejection clears it and no success
pushes into it — so a later smoothing-enabled call behaves exactly as if
the smoothing-disabled call had not happened. -/
theorem detectPitch_noSmoothing_frame (cfg : PitchConfig) (buffer : List ℝ)
    (sampleRate : ℝ) (now : ℤ) (smoothing : List ℝ) :
    (detectPitch cfg buffer sampleRate false now smoothing).2 = smoothing ∧
    (∀ (buffer2 : List ℝ) (sampleRate2 : ℝ) (now2 : ℤ),
      detectPitch cfg buffer2 sampleRate2 true now2
          ((detectPitch cfg buffer sampleRate false now smoothing).2)
        = detectPitch cfg buffer2 sampleRate2 true now2 smoothing) := by
  have h2 : (detectPitch cfg buffer sampleRate false now smoothing).2 = smoothing := by
    simp only [detectPitch, Bool.false_eq_true, if_false]
    split
    · rfl
    · split
      · rfl
      · split
        · rfl
        · split <;> rfl
  exact ⟨h2, fun buffer2 sampleRate2 now2 => by rw [h2]⟩

/-- An all-zero byte buffer has zero accumulated square sum. -/
lemma byteSumSquares_zero (buffer : List ℕ) (hz : ∀ x ∈ buffer, x = 0) :
    byteSumSquares buffer = 0 := by
  induction buffer with
  | nil => simp [byteSumSquares]
  | cons a l ih =>
      have ha : a = 0 := hz a (by simp)
      have hl : byteSumSquares l = 0 := ih fun x hx => hz x (by simp [hx])
      unfold byteSumSquares at hl ⊢
      rw [List.map_cons, List.sum_cons, hl, ha]
      norm_num

/-- A full-scale (constant 255) byte buffer accumulates one per sample. -/
lemma byteSumSquares_full (buffer : List ℕ) (hf : ∀ x ∈ buffer, x = 255) :
    byteSumSquares buffer = buffer.length := by
  induction buffer with
  | nil => simp [byteSumSquares]
  | cons a l ih =>
      have ha : a = 255 := hf a (by simp)
      have hl : byteSumSquares l = l.length := ih fun x hx => hf x (by simp [hx])
      unfold byteSumSquares at hl ⊢
      rw [List.map_cons, List.sum_cons, hl, ha, List.length_cons]
      push_cast
      ring

/-- C7: `getVolume` always lies in `[-100, 0]`; it is exactly `-100` on an
empty or all-zero buffer, exactly `0` on a non-empty full-scale (255)
constant buffer, and whenever the RMS of the normalized bins is non-zero
it equals `20·log₁₀(rms)` clamped to `[-100, 0]`. -/
theorem getVolume_spec (buffer : List ℕ) :
    getVolume buffer ∈ Set.Icc (-100 : ℝ) 0 ∧
    ((buffer = [] ∨ ∀ x ∈ buffer, x = 0) → getVolume buffer = -100) ∧
    ((buffer ≠ [] ∧ ∀ x ∈ buffer, x = 255) → getVolume buffer = 0) ∧
    (buffer ≠ [] → rmsOfBytes buffer ≠ 0 →
      getVolume buffer
        = max (-100) (min 0 (20 * Real.logb 10 (rmsOfBytes buffer)))) := by
  refine ⟨?_, ?_, ?_, ?_⟩
  · unfold getVolume
    split
    · norm_num
    · split
      · norm_num
      · constructor
        · exact le_max_left _ _
        · exact max_le (by norm_num) (min_le_left _ _)
  · rintro (rfl | hz)
    · simp [getVolume]
    · have hrms : rmsOfBytes buffer = 0 := by
        rw [rmsOfBytes, byteSumSquares_zero buffer hz]
        simp
      unfold getVolume
      by_cases hl : buffer.length = 0
      · rw [if_pos hl]
      · rw [if_neg hl, if_pos hrms]
  · rintro ⟨hne, hfull⟩
    have hlen : buffer.length ≠ 0 := by
      simpa [List.length_eq_zero] using hne
    have hrms : rmsOfBytes buffer = 1 := by
      have hsum := byteSumSquares_full buffer hfull
      rw [rmsOfBytes, hsum, div_self (by exact_mod_cast hlen)]
      exact Real.sqrt_one
    unfold getVolume
    rw [if_neg hlen, if_neg (by rw [hrms]; norm_num), hrms]
    norm_num
  · intro hne hrms
    have hlen : buffer.length ≠ 0 := by
      simpa [List.length_eq_zero] using hne
    unfold getVolume
    rw [if_neg hlen, if_neg hrms]

/-- C5: when smoothing is enabled and a detection passes the silence and
confidence gates, any reported pitch's frequency is the arithmetic mean of
the smoothing buffer after the raw frequency (sample rate over the
interpolated lag) has been pushed; the buffer is a bounded FIFO — pushing
keeps the length within the maximum size and pushing into a full buffer
drops the oldest entry. -/
theorem detectPitch_smoothed_mean (cfg : PitchConfig) (buffer : List ℝ)
    (sampleRate : ℝ) (now : ℤ) (smoothing : List ℝ) (peakIndex : ℕ) (conf : ℝ)
    (hsil : ¬ pitchRms buffer < 0.01)
    (hpk : findPeak cfg (autocorrelate cfg (normalizeBuffer buffer) sampleRate)
      sampleRate = some (peakIndex, conf))
    (hconf : ¬ conf < cfg.minConfidenceThreshold) :
    (∀ (p : PitchData) (buf2 : List ℝ),
      detectPitch cfg buffer sampleRate true now smoothing = (some p, buf2) →
      p.frequency =
        bufferSmoothed (bufferAdd cfg.smoothingBufferSize smoothing
          (sampleRate / parabolicInterpolation
            (autocorrelate cfg (normalizeBuffer buffer) sampleRate) peakIndex))) ∧
    (∀ (buf : List ℝ) (f : ℝ), buf.length ≤ cfg.smoothingBufferSize →
      (bufferAdd cfg.smoothingBufferSize buf f).length ≤ cfg.smoothingBufferSize) ∧
    (∀ (buf : List ℝ) (f : ℝ), buf ≠ [] → cfg.smoothingBufferSize ≤ buf.length →
      bufferAdd cfg.smoothingBufferSize buf f = buf.tail ++ [f]) ∧
    (∀ buf1 : List ℝ, buf1 ≠ [] →
      bufferSmoothed buf1 = buf1.sum / buf1.length) := by
  refine ⟨?_, fun buf f h => bufferAdd_length_le _ buf f h,
    fun buf f h1 h2 => bufferAdd_drop_oldest _ buf f h1 h2, ?_⟩
  · intro p buf2 hp
    simp only [detectPitch, if_neg hsil, hpk, if_neg hconf,
      eq_self_iff_true, if_true] at hp
    split at hp
    · exact absurd hp (by simp)
    · rw [Prod.ext_iff] at hp
      have h1 := hp.1
      simp only [Option.some.injEq] at h1
      rw [← h1]
      simp [frequencyToNote]
  · intro buf1 h1
    unfold bufferSmoothed
    rw [if_neg (by simpa [List.length_eq_zero] using h1)]

/-! ## Concrete evaluation of the pipeline on `bufEx` -/

/-- The full-scale square wave has RMS 1. -/
lemma pitchRms_bufEx : pitchRms bufEx = 1 := by
  have : ((bufEx.map fun x => x * x).sum / (bufEx.length : ℝ)) = 1 := by
    norm_num [bufEx]
  rw [pitchRms, this, Real.sqrt_one]

/-- The square wave is already at peak value 1. -/
lemma maxAbs_bufEx : maxAbs bufEx = 1 := by
  norm_num [maxAbs, bufEx, List.foldl, abs_of_nonneg, abs_of_nonpos]

/-- Normalization leaves the full-scale square wave unchanged. -/
lemma normalize_bufEx : normalizeBuffer bufEx = bufEx := by
  rw [normalizeBuffer, maxAbs_bufEx]
  rw [if_pos one_pos]
  norm_num [bufEx]

/-- The `maxSamples` under the example configuration at sample rate 8. -/
lemma maxSamples_ex : maxSamples cfgEx 8 = 8 := by
  have h : (⌊(8 : ℝ) / cfgEx.minFrequency⌋ : ℤ) = 8 := by norm_num [cfgEx]
  rw [maxSamples, h]
  rfl

/-- The `minSamples` under the example configuration at sample rate 8. -/
lemma minSamples_ex : minSamples cfgEx 8 = 2 := by
  have h : (⌊(8 : ℝ) / cfgEx.maxFrequency⌋ : ℤ) = 2 := by norm_num [cfgEx]
  rw [minSamples, h]
  rfl

/-- The autocorrelation of the square wave. -/
lemma autocorrelate_bufEx : autocorrelate cfgEx bufEx 8 = acEx := by
  rw [autocorrelate, maxSamples_ex,
    show List.range 8 = [0, 1, 2, 3, 4, 5, 6, 7] from rfl]
  norm_num [dotDrop, bufEx, acEx]

/-- The zero-crossing scan finds lag 2 (`acEx[2] = -6`). -/
lemma zeroCrossing_ex : zeroCrossing acEx 2 8 = 2 := by
  rw [zeroCrossing, show (8 - 2 : ℕ) = 6 from rfl,
    show List.range' 2 6 = [2, 3, 4, 5, 6, 7] from rfl]
  rw [firstNeg, if_pos (by norm_num [acEx])]
  rfl

/-- The peak scan selects lag 4 (value 4), confidence `4/8 = 1/2`. -/
lemma findPeak_ex : findPeak cfgEx acEx 8 = some (4, 1 / 2) := by
  simp only [findPeak, minSamples_ex, maxSamples_ex, zeroCrossing_ex]
  rw [show (8 - 1 - 2 : ℕ) = 5 from rfl,
    show List.range' 2 5 = [2, 3, 4, 5, 6] from rfl]
  rw [List.foldl_cons, show peakStep acEx none 2 = none by
    rw [peakStep]; rw [if_neg (by norm_num [acEx])]]
  rw [List.foldl_cons, show peakStep acEx none 3 = none by
    rw [peakStep]; rw [if_neg (by norm_num [acEx])]]
  rw [List.foldl_cons, show peakStep acEx none 4 = some (4, 4) by
    rw [peakStep]; rw [if_pos (by norm_num [acEx])]; norm_num [acEx]]
  rw [List.foldl_cons, show peakStep acEx (some (4, 4)) 5 = some (4, 4) by
    rw [peakStep]; rw [if_neg (by norm_num [acEx])]]
  rw [List.foldl_cons, show peakStep acEx (some (4, 4)) 6 = some (4, 4) by
    rw [peakStep]; rw [if_neg (by norm_num [acEx])]]
  rw [List.foldl_nil]
  dsimp only
  rw [if_pos (by norm_num [acEx])]
  norm_num [acEx]

/-- Parabolic interpolation around lag 4 of `acEx`:
`4 + 0.5·(-1-1)/(-1-8+1) = 33/8`. -/
lemma parabolic_ex : parabolicInterpolation acEx 4 = 33 / 8 := by
  rw [parabolicInterpolation, if_neg (by norm_num [acEx])]
  norm_num [acEx]

/-- Full evaluation of `detectPitch` on the square wave: accepted with
confidence `1/2`, smoothed frequency `64/33`, buffer `[64/33]`. -/
lemma detectPitch_ex :
    detectPitch cfgEx bufEx 8 true 0 [] = (some pEx, [64 / 33]) := by
  have hsil : ¬ pitchRms bufEx < 0.01 := by rw [pitchRms_bufEx]; norm_num
  have hpk : findPeak cfgEx (autocorrelate cfgEx (normalizeBuffer bufEx) 8) 8
      = some (4, 1 / 2) := by
    rw [normalize_bufEx, autocorrelate_bufEx]; exact findPeak_ex
  have hconf : ¬ (1 / 2 : ℝ) < cfgEx.minConfidenceThreshold := by
    norm_num [cfgEx]
  have hraw : (8 : ℝ) / parabolicInterpolation acEx 4 = 64 / 33 := by
    rw [parabolic_ex]; norm_num
  have hadd : bufferAdd cfgEx.smoothingBufferSize [] (64 / 33 : ℝ)
      = [64 / 33] := by
    norm_num [bufferAdd, cfgEx]
  have hsm : bufferSmoothed [(64 / 33 : ℝ)] = 64 / 33 := by
    norm_num [bufferSmoothed]
  simp only [detectPitch, if_neg hsil, normalize_bufEx, autocorrelate_bufEx,
    findPeak_ex, if_neg hconf, eq_self_iff_true, if_true, hraw, hadd, hsm]
  rw [if_neg (by norm_num [cfgEx])]
  simp only [Prod.mk.injEq, Option.some.injEq]
  constructor
  · show ({ note := (frequencyToNote (64 / 33)).note,
            cents := (frequencyToNote (64 / 33)).cents,
            frequency := (frequencyToNote (64 / 33)).frequency,
            octave := (frequencyToNote (64 / 33)).octave,
            confidence := min (1 / 2) 1, timestamp := 0 } : PitchData) = pEx
    rw [pEx]
    simp [frequencyToNote, min_eq_left]
    norm_num
  · trivial

/-- C5 witness: on the concrete square wave the reported frequency equals
the mean of the pushed smoothing buffer. -/
theorem detectPitch_smoothed_mean_witness :
    pEx.frequency
      = bufferSmoothed (bufferAdd cfgEx.smoothingBufferSize []
          (8 / parabolicInterpolation
            (autocorrelate cfgEx (normalizeBuffer bufEx) 8) 4)) :=
  (detectPitch_smoothed_mean cfgEx bufEx 8 0 [] 4 (1 / 2)
      (by rw [pitchRms_bufEx]; norm_num)
      (by rw [normalize_bufEx, autocorrelate_bufEx]; exact findPeak_ex)
      (by norm_num [cfgEx])).1 pEx [64 / 33] detectPitch_ex

/-- C3 counterexample: with sensitivity `low` (threshold 0.85) the square
wave's detection (confidence 1/2) is rejected — the reported pitch is
absent — but the smoothing buffer is NOT cleared: it still holds the
rejected frame's frequency, which later detections will average in. -/
theorem sensitivity_reject_buffer_not_cleared :
    (detectPitchWithSensitivity cfgEx bufEx 8 .low 0 []).1 = none ∧
    (detectPitchWithSensitivity cfgEx bufEx 8 .low 0 []).2 ≠ [] := by
  have h : detectPitchWithSensitivity cfgEx bufEx 8 .low 0 []
      = (none, [64 / 33]) := by
    simp only [detectPitchWithSensitivity, detectPitch_ex]
    rw [if_pos (by norm_num [pEx, sensitivityThreshold])]
  rw [h]
  simp

/-- C3 amended: a detection rejected because its confidence is below the
caller-supplied sensitivity threshold (low 0.85, medium 0.70, high 0.50)
reports an absent pitch, but the smoothing buffer is left exactly as the
underlying smoothing-enabled `detectPitch` call produced it — with the
rejected frame's frequency still pushed, not cleared. -/
theorem detectPitchWithSensitivity_reject (cfg : PitchConfig)
    (buffer : List ℝ) (sampleRate : ℝ) (sens : Sensitivity) (now : ℤ)
    (smoothing : List ℝ) (r : PitchData) (buf2 : List ℝ)
    (h : detectPitch cfg buffer sampleRate true now smoothing = (some r, buf2))
    (hc : r.confidence < sensitivityThreshold sens) :
    detectPitchWithSensitivity cfg buffer sampleRate sens now smoothing
      = (none, buf2) := by
  simp only [detectPitchWithSensitivity, h]
  rw [if_pos hc]

/-- C3 amended witness: the square wave at sensitivity `low`. -/
theorem detectPitchWithSensitivity_reject_witness :
    detectPitchWithSensitivity cfgEx bufEx 8 .low 0 [] = (none, [64 / 33]) :=
  detectPitchWithSensitivity_reject cfgEx bufEx 8 .low 0 [] pEx [64 / 33]
    detectPitch_ex (by norm_num [pEx, sensitivityThreshold])

/-! ## Claim C4: characterization of findPeak -/

/-- The zero-crossing scan: either no scanned value is negative and the
scan yields nothing, or it yields the first index with a negative value. -/
lemma firstNeg_spec (ac : List ℝ) :
    ∀ k a : ℕ,
      (firstNeg ac (List.range' a k) = none ∧
        ∀ i ∈ List.range' a k, ¬ ac.getD i 0 < 0) ∨
      (∃ i, firstNeg ac (List.range' a k) = some i ∧ i ∈ List.range' a k ∧
        ac.getD i 0 < 0 ∧ ∀ j ∈ List.range' a k, j < i → ¬ ac.getD j 0 < 0) := by
  intro k
  induction k with
  | zero => intro a; left; simp [firstNeg]
  | succ n ih =>
      intro a
      rw [List.range'_succ]
      by_cases h : ac.getD a 0 < 0
      · right
        refine ⟨a, by rw [firstNeg, if_pos h], by simp, h, ?_⟩
        intro j hj hja
        rcases List.mem_cons.mp hj with rfl | hj'
        · omega
        · have := (List.mem_range'_1.mp hj').1
          omega
      · rcases ih (a + 1) with ⟨h1, h2⟩ | ⟨i, h1, h2, h3, h4⟩
        · left
          refine ⟨by rw [firstNeg, if_neg h]; exact h1, ?_⟩
          intro i hi
          rcases List.mem_cons.mp hi with rfl | hi'
          · exact h
          · exact h2 i hi'
        · right
          refine ⟨i, by rw [firstNeg, if_neg h]; exact h1,
            List.mem_cons.mpr (Or.inr h2), h3, ?_⟩
          intro j hj hji
          rcases List.mem_cons.mp hj with rfl | hj'
          · exact h
          · exact h4 j hj' hji

/-- Injectivity of `some (i, v)`, in the form the fold proofs use. -/
lemma somePair_inj {i j : ℕ} {v w : ℝ}
    (h : (some (i, v) : Option (ℕ × ℝ)) = some (j, w)) : i = j ∧ v = w := by
  obtain ⟨h1, h2⟩ := Prod.ext_iff.mp (Option.some_inj.mp h)
  exact ⟨h1, h2⟩

/-- Full characterization of the peak-scan fold: starting from a state
that carries the value at its own index and an index left of the scanned
range, the fold returns nothing iff it started from nothing and the range
has no strict local maximum; and a returned peak carries its own
autocorrelation value, is a local maximum of the range (unless it is the
untouched start state), strictly dominates every earlier local maximum of
the range, dominates (non-strictly) every later one, and strictly beats
the start state's value unless it is the start state. -/
lemma peakFold_spec (ac : List ℝ) :
    ∀ (k a : ℕ) (st : Option (ℕ × ℝ)),
      (∀ j v, st = some (j, v) → v = ac.getD j 0 ∧ j < a) →
      (((List.range' a k).foldl (peakStep ac) st = none ↔
          st = none ∧ ∀ i ∈ List.range' a k, ¬ LocalMax ac i) ∧
       (∀ i v, (List.range' a k).foldl (peakStep ac) st = some (i, v) →
          v = ac.getD i 0 ∧
          (st = some (i, v) ∨ (i ∈ List.range' a k ∧ LocalMax ac i)) ∧
          (∀ j ∈ List.range' a k, LocalMax ac j → j < i → ac.getD j 0 < v) ∧
          (∀ j ∈ List.range' a k, LocalMax ac j → i < j → ac.getD j 0 ≤ v) ∧
          (∀ j0 v0, st = some (j0, v0) → ((i, v) = (j0, v0) ∨ v0 < v)))) := by
  intro k
  induction k with
  | zero =>
      intro a st hst
      constructor
      · simp [List.range']
      · intro i v hiv
        simp only [List.range', List.foldl_nil] at hiv
        obtain ⟨hv, _⟩ := hst i v hiv
        refine ⟨hv, Or.inl hiv, by simp [List.range'], by simp [List.range'], ?_⟩
        intro j0 v0 h0
        rw [hiv] at h0
        exact Or.inl (Option.some_inj.mp h0)
  | succ n ih =>
      intro a st hst
      rw [List.range'_succ, List.foldl_cons]
      have hmem_rest : ∀ j, j ∈ List.range' (a + 1) n → a + 1 ≤ j :=
        fun j hj => (List.mem_range'_1.mp hj).1
      cases st with
      | none =>
          by_cases hlm : LocalMax ac a
          · -- the head is taken: state becomes (a, ac[a])
            have hstep : peakStep ac none a = some (a, ac.getD a 0) := by
              rw [peakStep]
              exact if_pos hlm
            rw [hstep]
            have hst' : ∀ j v, (some (a, ac.getD a 0) : Option (ℕ × ℝ))
                = some (j, v) → v = ac.getD j 0 ∧ j < a + 1 := by
              intro j v h
              obtain ⟨h1, h2⟩ := somePair_inj h
              exact ⟨by rw [← h1, ← h2], by omega⟩
            obtain ⟨IH1, IH2⟩ := ih (a + 1) _ hst'
            constructor
            · constructor
              · intro hf
                exact absurd ((IH1.mp hf).1) (by simp)
              · rintro ⟨-, hall⟩
                exact absurd hlm (hall a (List.mem_cons_self a _))
            · intro i v hfold
              obtain ⟨hv, hdisj, hlt, hle, hbeat⟩ := IH2 i v hfold
              refine ⟨hv, ?_, ?_, ?_, by intro j0 v0 h; cases h⟩
              · right
                rcases hdisj with heq | ⟨hmem, hlmi⟩
                · obtain ⟨h1, -⟩ := somePair_inj heq
                  rw [← h1]
                  exact ⟨List.mem_cons_self a _, hlm⟩
                · exact ⟨List.mem_cons.mpr (Or.inr hmem), hlmi⟩
              · intro j hj hlmj hji
                rcases List.mem_cons.mp hj with hja | hj'
                · rw [hja] at hlmj ⊢
                  rcases hdisj with heq | ⟨hmemi, -⟩
                  · obtain ⟨h1, -⟩ := somePair_inj heq
                    omega
                  · rcases hbeat a (ac.getD a 0) rfl with heq2 | hgt
                    · obtain ⟨h1, -⟩ := Prod.ext_iff.mp heq2
                      omega
                    · exact hgt
                · exact hlt j hj' hlmj hji
              · intro j hj hlmj hij
                rcases List.mem_cons.mp hj with hja | hj'
                · rw [hja] at hlmj ⊢
                  rcases hdisj with heq | ⟨hmemi, -⟩
                  · obtain ⟨h1, -⟩ := somePair_inj heq
                    omega
                  · have := hmem_rest i hmemi
                    omega
                · exact hle j hj' hlmj hij
          · -- head rejected: state stays empty
            have hstep : peakStep ac none a = none := by
              rw [peakStep]
              exact if_neg hlm
            rw [hstep]
            obtain ⟨IH1, IH2⟩ := ih (a + 1) none (by intro j v h; cases h)
            constructor
            · rw [IH1]
              constructor
              · rintro ⟨-, hall⟩
                refine ⟨rfl, ?_⟩
                intro i hi
                rcases List.mem_cons.mp hi with rfl | hi'
                · exact hlm
                · exact hall i hi'
              · rintro ⟨-, hall⟩
                exact ⟨rfl, fun i hi => hall i (List.mem_cons.mpr (Or.inr hi))⟩
            · intro i v hfold
              obtain ⟨hv, hdisj, hlt, hle, -⟩ := IH2 i v hfold
              refine ⟨hv, ?_, ?_, ?_, by intro j0 v0 h; cases h⟩
              · rcases hdisj with heq | ⟨hmem, hlmi⟩
                · cases heq
                · exact Or.inr ⟨List.mem_cons.mpr (Or.inr hmem), hlmi⟩
              · intro j hj hlmj hji
                rcases List.mem_cons.mp hj with hja | hj'
                · rw [hja] at hlmj ⊢
                  exact absurd hlmj hlm
                · exact hlt j hj' hlmj hji
              · intro j hj hlmj hij
                rcases List.mem_cons.mp hj with hja | hj'
                · rw [hja] at hlmj ⊢
                  exact absurd hlmj hlm
                · exact hle j hj' hlmj hij
      | some jv =>
          obtain ⟨j0, v0⟩ := jv
          obtain ⟨hv0, hj0a⟩ := hst j0 v0 rfl
          by_cases hcond : LocalMax ac a ∧ v0 < ac.getD a 0
          · -- the head beats the carried state
            have hstep : peakStep ac (some (j0, v0)) a = some (a, ac.getD a 0) := by
              rw [peakStep]
              exact if_pos ⟨hcond.1.1, hcond.1.2, hcond.2⟩
            rw [hstep]
            have hst' : ∀ j v, (some (a, ac.getD a 0) : Option (ℕ × ℝ))
                = some (j, v) → v = ac.getD j 0 ∧ j < a + 1 := by
              intro j v h
              obtain ⟨h1, h2⟩ := somePair_inj h
              exact ⟨by rw [← h1, ← h2], by omega⟩
            obtain ⟨IH1, IH2⟩ := ih (a + 1) _ hst'
            constructor
            · constructor
              · intro hf
                exact absurd ((IH1.mp hf).1) (by simp)
              · rintro ⟨hc, -⟩
                cases hc
            · intro i v hfold
              obtain ⟨hv, hdisj, hlt, hle, hbeat⟩ := IH2 i v hfold
              have hv_ge_head : ac.getD a 0 ≤ v := by
                rcases hbeat a (ac.getD a 0) rfl with heq | hgt
                · obtain ⟨-, h2⟩ := Prod.ext_iff.mp heq
                  exact le_of_eq h2.symm
                · exact le_of_lt hgt
              refine ⟨hv, ?_, ?_, ?_, ?_⟩
              · right
                rcases hdisj with heq | ⟨hmem, hlmi⟩
                · obtain ⟨h1, -⟩ := somePair_inj heq
                  rw [← h1]
                  exact ⟨List.mem_cons_self a _, hcond.1⟩
                · exact ⟨List.mem_cons.mpr (Or.inr hmem), hlmi⟩
              · intro j hj hlmj hji
                rcases List.mem_cons.mp hj with hja | hj'
                · rw [hja] at hlmj ⊢
                  rcases hdisj with heq | ⟨hmemi, -⟩
                  · obtain ⟨h1, -⟩ := somePair_inj heq
                    omega
                  · rcases hbeat a (ac.getD a 0) rfl with heq2 | hgt
                    · obtain ⟨h1, -⟩ := Prod.ext_iff.mp heq2
                      omega
                    · exact hgt
                · exact hlt j hj' hlmj hji
              · intro j hj hlmj hij
                rcases List.mem_cons.mp hj with hja | hj'
                · rw [hja] at hlmj ⊢
                  rcases hdisj with heq | ⟨hmemi, -⟩
                  · obtain ⟨h1, -⟩ := somePair_inj heq
                    omega
                  · have := hmem_rest i hmemi
                    omega
                · exact hle j hj' hlmj hij
              · intro j0' v0' h0
                obtain ⟨he1, he2⟩ := somePair_inj h0
                right
                calc v0' = v0 := by rw [← he2]
                  _ < ac.getD a 0 := hcond.2
                  _ ≤ v := hv_ge_head
          · -- head rejected: the carried state survives
            have hstep : peakStep ac (some (j0, v0)) a = some (j0, v0) := by
              rw [peakStep]
              apply if_neg
              intro hc
              exact hcond ⟨⟨hc.1, hc.2.1⟩, hc.2.2⟩
            rw [hstep]
            have hst' : ∀ j v, (some (j0, v0) : Option (ℕ × ℝ))
                = some (j, v) → v = ac.getD j 0 ∧ j < a + 1 := by
              intro j v h
              obtain ⟨h1, h2⟩ := somePair_inj h
              exact ⟨by rw [← h1, ← h2]; exact hv0, by omega⟩
            obtain ⟨IH1, IH2⟩ := ih (a + 1) _ hst'
            have hhead_le : LocalMax ac a → ac.getD a 0 ≤ v0 := by
              intro hlm
              by_contra hgt
              exact hcond ⟨hlm, lt_of_not_le hgt⟩
            constructor
            · constructor
              · intro hf
                exact absurd ((IH1.mp hf).1) (by simp)
              · rintro ⟨hc, -⟩
                cases hc
            · intro i v hfold
              obtain ⟨hv, hdisj, hlt, hle, hbeat⟩ := IH2 i v hfold
              refine ⟨hv, ?_, ?_, ?_, ?_⟩
              · rcases hdisj with heq | ⟨hmem, hlmi⟩
                · exact Or.inl heq
                · exact Or.inr ⟨List.mem_cons.mpr (Or.inr hmem), hlmi⟩
              · intro j hj hlmj hji
                rcases List.mem_cons.mp hj with hja | hj'
                · rw [hja] at hlmj ⊢
                  rcases hbeat j0 v0 rfl with heq2 | hgt
                  · obtain ⟨h1, -⟩ := Prod.ext_iff.mp heq2
                    omega
                  · calc ac.getD a 0 ≤ v0 := hhead_le hlmj
                      _ < v := hgt
                · exact hlt j hj' hlmj hji
              · intro j hj hlmj hij
                rcases List.mem_cons.mp hj with hja | hj'
                · rw [hja] at hlmj ⊢
                  rcases hdisj with heq | ⟨hmemi, -⟩
                  · obtain ⟨-, h2⟩ := somePair_inj heq
                    calc ac.getD a 0 ≤ v0 := hhead_le hlmj
                      _ = v := h2
                  · have := hmem_rest i hmemi
                    omega
                · exact hle j hj' hlmj hij
              · intro j0' v0' h0
                obtain ⟨he1, he2⟩ := somePair_inj h0
                rw [← he1, ← he2]
                exact hbeat j0 v0 rfl

/-- C4: `findPeak` scans lags from `⌊sampleRate/MAX_FREQUENCY⌋`; the
zero-crossing is the first scanned lag with a negative autocorrelation
value (the scan start if none is negative); a returned peak is a strict
local maximum of the scanned range `[zeroCrossing, maxSamples−1)` that
strictly exceeds every earlier local maximum and (at least) ties every
later one — the earliest peak of maximal value, ties always resolved to
the lowest lag; `null` is returned exactly when the scanned range has no
strict local maximum; and the confidence is the peak value over the
zero-lag autocorrelation.  The hypothesis `hlen` records the call-site
invariant (the autocorrelation buffer has exactly `maxSamples` entries),
under which the embedding's defaulted list reads coincide with the
source's array accesses. -/
theorem findPeak_characterization (cfg : PitchConfig) (ac : List ℝ)
    (sampleRate : ℝ) (hlen : ac.length = maxSamples cfg sampleRate) :
    ((zeroCrossing ac (minSamples cfg sampleRate) (maxSamples cfg sampleRate)
        = minSamples cfg sampleRate ∧
      ∀ i ∈ List.range' (minSamples cfg sampleRate)
          (maxSamples cfg sampleRate - minSamples cfg sampleRate),
        ¬ ac.getD i 0 < 0) ∨
     (zeroCrossing ac (minSamples cfg sampleRate) (maxSamples cfg sampleRate)
        ∈ List.range' (minSamples cfg sampleRate)
            (maxSamples cfg sampleRate - minSamples cfg sampleRate) ∧
      ac.getD (zeroCrossing ac (minSamples cfg sampleRate)
          (maxSamples cfg sampleRate)) 0 < 0 ∧
      ∀ j ∈ List.range' (minSamples cfg sampleRate)
          (maxSamples cfg sampleRate - minSamples cfg sampleRate),
        j < zeroCrossing ac (minSamples cfg sampleRate)
            (maxSamples cfg sampleRate) →
          ¬ ac.getD j 0 < 0)) ∧
    (findPeak cfg ac sampleRate = none ↔
      ∀ i ∈ List.range'
          (zeroCrossing ac (minSamples cfg sampleRate)
            (maxSamples cfg sampleRate))
          (maxSamples cfg sampleRate - 1 -
            zeroCrossing ac (minSamples cfg sampleRate)
              (maxSamples cfg sampleRate)),
        ¬ LocalMax ac i) ∧
    (∀ i conf, findPeak cfg ac sampleRate = some (i, conf) →
      i ∈ List.range'
          (zeroCrossing ac (minSamples cfg sampleRate)
            (maxSamples cfg sampleRate))
          (maxSamples cfg sampleRate - 1 -
            zeroCrossing ac (minSamples cfg sampleRate)
              (maxSamples cfg sampleRate)) ∧
      LocalMax ac i ∧
      (∀ j ∈ List.range'
          (zeroCrossing ac (minSamples cfg sampleRate)
            (maxSamples cfg sampleRate))
          (maxSamples cfg sampleRate - 1 -
            zeroCrossing ac (minSamples cfg sampleRate)
              (maxSamples cfg sampleRate)),
        LocalMax ac j → j < i → ac.getD j 0 < ac.getD i 0) ∧
      (∀ j ∈ List.range'
          (zeroCrossing ac (minSamples cfg sampleRate)
            (maxSamples cfg sampleRate))
          (maxSamples cfg sampleRate - 1 -
            zeroCrossing ac (minSamples cfg sampleRate)
              (maxSamples cfg sampleRate)),
        LocalMax ac j → i < j → ac.getD j 0 ≤ ac.getD i 0) ∧
      conf = if 0 < ac.getD 0 0 then ac.getD i 0 / ac.getD 0 0 else 0) := by
  obtain ⟨F1, F2⟩ := peakFold_spec ac
    (maxSamples cfg sampleRate - 1 -
      zeroCrossing ac (minSamples cfg sampleRate) (maxSamples cfg sampleRate))
    (zeroCrossing ac (minSamples cfg sampleRate) (maxSamples cfg sampleRate))
    none (by intro j v h; cases h)
  refine ⟨?_, ?_, ?_⟩
  · rcases firstNeg_spec ac
        (maxSamples cfg sampleRate - minSamples cfg sampleRate)
        (minSamples cfg sampleRate) with ⟨h1, h2⟩ | ⟨i, h1, h2, h3, h4⟩
    · left
      exact ⟨by rw [zeroCrossing, h1]; rfl, h2⟩
    · right
      have hzc : zeroCrossing ac (minSamples cfg sampleRate)
          (maxSamples cfg sampleRate) = i := by
        rw [zeroCrossing, h1]; rfl
      rw [hzc]
      exact ⟨h2, h3, h4⟩
  · constructor
    · intro h
      cases hfold : (List.range'
          (zeroCrossing ac (minSamples cfg sampleRate)
            (maxSamples cfg sampleRate))
          (maxSamples cfg sampleRate - 1 -
            zeroCrossing ac (minSamples cfg sampleRate)
              (maxSamples cfg sampleRate))).foldl (peakStep ac) none with
      | none => exact (F1.mp hfold).2
      | some p =>
          obtain ⟨pi, pv⟩ := p
          rw [findPeak] at h
          rw [hfold] at h
          cases h
    · intro hall
      rw [findPeak]
      rw [F1.mpr ⟨rfl, hall⟩]
  · intro i conf hsome
    rw [findPeak] at hsome
    cases hfold : (List.range'
        (zeroCrossing ac (minSamples cfg sampleRate)
          (maxSamples cfg sampleRate))
        (maxSamples cfg sampleRate - 1 -
          zeroCrossing ac (minSamples cfg sampleRate)
            (maxSamples cfg sampleRate))).foldl (peakStep ac) none with
    | none =>
        rw [hfold] at hsome
        cases hsome
    | some p =>
        obtain ⟨pi, pv⟩ := p
        rw [hfold] at hsome
        obtain ⟨he1, he2⟩ := somePair_inj hsome
        obtain ⟨hv, hdisj, hlt, hle, -⟩ := F2 pi pv hfold
        rcases hdisj with heq | ⟨hmem, hlmi⟩
        · cases heq
        · subst he1
          refine ⟨hmem, hlmi, ?_, ?_, he2.symm ▸ by rw [hv]⟩
          · intro j hj hlmj hji
            rw [← hv]
            exact hlt j hj hlmj hji
          · intro j hj hlmj hij
            rw [← hv]
            exact hle j hj hlmj hij

/-- C4 witness: on the concrete autocorrelation `acEx` the returned peak
is lag 4 with confidence `1/2`, and the characterization applies to it. -/
theorem findPeak_characterization_witness :
    findPeak cfgEx acEx 8 = some (4, 1 / 2) ∧
    (4 ∈ List.range'
        (zeroCrossing acEx (minSamples cfgEx 8) (maxSamples cfgEx 8))
        (maxSamples cfgEx 8 - 1 -
          zeroCrossing acEx (minSamples cfgEx 8) (maxSamples cfgEx 8)) ∧
      LocalMax acEx 4 ∧
      (∀ j ∈ List.range'
          (zeroCrossing acEx (minSamples cfgEx 8) (maxSamples cfgEx 8))
          (maxSamples cfgEx 8 - 1 -
            zeroCrossing acEx (minSamples cfgEx 8) (maxSamples cfgEx 8)),
        LocalMax acEx j → j < 4 → acEx.getD j 0 < acEx.getD 4 0) ∧
      (∀ j ∈ List.range'
          (zeroCrossing acEx (minSamples cfgEx 8) (maxSamples cfgEx 8))
          (maxSamples cfgEx 8 - 1 -
            zeroCrossing acEx (minSamples cfgEx 8) (maxSamples cfgEx 8)),
        LocalMax acEx j → 4 < j → acEx.getD j 0 ≤ acEx.getD 4 0) ∧
      (1 / 2 : ℝ) = if 0 < acEx.getD 0 0 then acEx.getD 4 0 / acEx.getD 0 0
        else 0) :=
  ⟨findPeak_ex,
    (findPeak_characterization cfgEx acEx 8
        (by rw [maxSamples_ex]; rfl)).2.2 4 (1 / 2) findPeak_ex⟩

/-! ## Claim C9: the note round trip

The proof works with `qtone = 2^(1/24)`: half-semitone intervals around
equal-temperament notes are odd integer powers of `qtone`, and comparing
a rational with `qtone ^ m` reduces — by raising both sides to the 24th
power, since `qtone ^ 24 = 2` exactly — to an integer inequality, which
`decide` settles for all 46 semitone offsets the detector's frequency
range can produce. -/

/-- The quarter-tone ratio is positive. -/
lemma qtone_pos : 0 < qtone := Real.rpow_pos_of_pos two_pos _

/-- The 24th power of `2^(1/24)` is exactly 2. -/
lemma qtone_pow24 : qtone ^ (24 : ℕ) = 2 := by
  rw [qtone, ← Real.rpow_natCast ((2 : ℝ) ^ ((1 : ℝ) / 24)) 24,
    ← Real.rpow_mul (by norm_num : (0 : ℝ) ≤ 2)]
  norm_num

/-- Integer powers of `qtone` as real powers of 2. -/
lemma qtone_zpow_rpow (m : ℤ) : qtone ^ m = (2 : ℝ) ^ ((m : ℝ) / 24) := by
  rw [qtone, ← Real.rpow_intCast ((2 : ℝ) ^ ((1 : ℝ) / 24)) m,
    ← Real.rpow_mul (by norm_num : (0 : ℝ) ≤ 2)]
  congr 1
  ring

/-- The semitone ratio is the square of the quarter-tone ratio. -/
lemma semitoneRatio_sq : semitoneRatio = qtone ^ (2 : ℕ) := by
  rw [semitoneRatio, qtone, ← Real.rpow_natCast ((2 : ℝ) ^ ((1 : ℝ) / 24)) 2,
    ← Real.rpow_mul (by norm_num : (0 : ℝ) ≤ 2)]
  norm_num

/-- Raising `qtone ^ m` to the 24th power gives `2 ^ m` exactly. -/
lemma qtone_zpow_pow24 (m : ℤ) : (qtone ^ m) ^ (24 : ℕ) = (2 : ℝ) ^ m := by
  rw [← zpow_natCast (qtone ^ m) 24, ← zpow_mul,
    show (m * ((24 : ℕ) : ℤ)) = ((24 : ℕ) : ℤ) * m by ring,
    zpow_mul, zpow_natCast, qtone_pow24]

/-- Comparison `qtone ^ m ≤ q` follows from the 24th-power comparison. -/
lemma qtone_zpow_le {m : ℤ} {q : ℝ} (hq : 0 < q)
    (h : (2 : ℝ) ^ m ≤ q ^ (24 : ℕ)) : qtone ^ m ≤ q := by
  have h1 : (qtone ^ m) ^ (24 : ℕ) ≤ q ^ (24 : ℕ) := by
    rw [qtone_zpow_pow24]; exact h
  exact le_of_pow_le_pow_left₀ (by norm_num) hq.le h1

/-- Comparison `q ≤ qtone ^ m` follows from the 24th-power comparison. -/
lemma le_qtone_zpow {m : ℤ} {q : ℝ}
    (h : q ^ (24 : ℕ) ≤ (2 : ℝ) ^ m) : q ≤ qtone ^ m := by
  have h1 : q ^ (24 : ℕ) ≤ (qtone ^ m) ^ (24 : ℕ) := by
    rw [qtone_zpow_pow24]; exact h
  exact le_of_pow_le_pow_left₀ (by norm_num) (zpow_pos qtone_pos m).le h1

/-- Strict variant of `le_qtone_zpow`. -/
lemma lt_qtone_zpow {m : ℤ} {q : ℝ}
    (h : q ^ (24 : ℕ) < (2 : ℝ) ^ m) : q < qtone ^ m := by
  by_contra hc
  push_neg at hc
  have h2 := pow_le_pow_left₀ (zpow_pos qtone_pos m).le hc 24
  rw [qtone_zpow_pow24] at h2
  linarith

/-- Numeric bound behind the lower end of the detector range:
`80/440 = 2/11` exceeds `qtone^(-61)` (since `11^24 ≤ 2^85`). -/
lemma qtone_neg61_le : qtone ^ (-61 : ℤ) ≤ 2 / 11 := by
  apply qtone_zpow_le (by norm_num)
  have he : (2 : ℝ) ^ (-61 : ℤ) = ((2 : ℝ) ^ (61 : ℕ))⁻¹ := by
    rw [zpow_neg]
    norm_cast
  rw [he, inv_eq_one_div, div_pow, div_le_div_iff₀ (by positivity) (by positivity)]
  norm_num

/-- Numeric bound behind the upper end of the detector range:
`1050/440` is below `qtone^31` (since `1050^24 < 2^31 · 440^24`). -/
lemma ratio_lt_qtone31 : (1050 : ℝ) / 440 < qtone ^ (31 : ℤ) := by
  apply lt_qtone_zpow
  rw [div_pow, div_lt_iff₀ (by positivity)]
  have he : (2 : ℝ) ^ (31 : ℤ) = 2 ^ (31 : ℕ) := by norm_cast
  rw [he]
  norm_num

/-- Lower bridge: the integer certificate inequality of `noteCheck` gives
the real bound `440·qtone^(2n−1) ≤ a/d`. -/
lemma lower_bridge (n : ℤ) (hn : -30 ≤ n) (a d : ℕ) (hd : 0 < d)
    (h : 440 ^ 24 * 2 ^ (2 * n + 60).toNat * d ^ 24 ≤ a ^ 24 * 2 ^ 61) :
    440 * qtone ^ (2 * n - 1) ≤ (a : ℝ) / d := by
  have ha : 0 < a := by
    rcases Nat.eq_zero_or_pos a with rfl | h'
    · have hpos : 0 < 440 ^ 24 * 2 ^ (2 * n + 60).toNat * d ^ 24 := by positivity
      simp at h
      omega
    · exact h'
  have hstep : qtone ^ (2 * n - 1) ≤ ((a : ℝ) / d) / 440 := by
    apply qtone_zpow_le (by positivity)
    have hcast : (440 : ℝ) ^ 24 * (2 : ℝ) ^ ((2 * n + 60).toNat) * (d : ℝ) ^ 24
        ≤ (a : ℝ) ^ 24 * 2 ^ (61 : ℕ) := by exact_mod_cast h
    have h60 : ((2 : ℝ) ^ ((2 * n + 60).toNat : ℕ)) = (2 : ℝ) ^ ((2 * n + 60) : ℤ) := by
      rw [← zpow_natCast (2 : ℝ)]
      congr 1
      omega
    have hsplit : (2 : ℝ) ^ ((2 * n + 60) : ℤ)
        = (2 : ℝ) ^ ((2 * n - 1) : ℤ) * 2 ^ (61 : ℕ) := by
      rw [← zpow_natCast (2 : ℝ) 61, ← zpow_add₀ (two_ne_zero)]
      congr 1
      omega
    have key : (440 : ℝ) ^ 24 * ((2 : ℝ) ^ ((2 * n - 1) : ℤ)) * (d : ℝ) ^ 24
        ≤ (a : ℝ) ^ 24 := by
      have h2 : ((440 : ℝ) ^ 24 * (2 : ℝ) ^ ((2 * n - 1) : ℤ) * (d : ℝ) ^ 24) * 2 ^ (61 : ℕ)
          ≤ (a : ℝ) ^ 24 * 2 ^ (61 : ℕ) := by
        calc ((440 : ℝ) ^ 24 * (2 : ℝ) ^ ((2 * n - 1) : ℤ) * (d : ℝ) ^ 24) * 2 ^ (61 : ℕ)
            = (440 : ℝ) ^ 24 * ((2 : ℝ) ^ ((2 * n - 1) : ℤ) * 2 ^ (61 : ℕ)) * (d : ℝ) ^ 24 := by
              ring
          _ = (440 : ℝ) ^ 24 * (2 : ℝ) ^ ((2 * n + 60) : ℤ) * (d : ℝ) ^ 24 := by rw [← hsplit]
          _ ≤ (a : ℝ) ^ 24 * 2 ^ (61 : ℕ) := by rw [← h60]; exact hcast
      exact le_of_mul_le_mul_right h2 (by positivity)
    rw [div_div, div_pow, le_div_iff₀ (by positivity)]
    calc (2 : ℝ) ^ ((2 * n - 1) : ℤ) * ((d : ℝ) * 440) ^ 24
        = (440 : ℝ) ^ 24 * (2 : ℝ) ^ ((2 * n - 1) : ℤ) * (d : ℝ) ^ 24 := by
          rw [mul_pow]; ring
      _ ≤ (a : ℝ) ^ 24 := key
  have hm := mul_le_mul_of_nonneg_left hstep (by norm_num : (0 : ℝ) ≤ 440)
  calc (440 : ℝ) * qtone ^ (2 * n - 1) ≤ 440 * ((a : ℝ) / d / 440) := hm
    _ = (a : ℝ) / d := by ring

/-- Upper bridge: the integer certificate inequality of `noteCheck` gives
the real bound `a/d ≤ 440·qtone^(2n+1)`. -/
lemma upper_bridge (n : ℤ) (hn : -30 ≤ n) (a d : ℕ) (hd : 0 < d)
    (h : a ^ 24 * 2 ^ 61 ≤ 440 ^ 24 * 2 ^ (2 * n + 62).toNat * d ^ 24) :
    (a : ℝ) / d ≤ 440 * qtone ^ (2 * n + 1) := by
  have hstep : ((a : ℝ) / d) / 440 ≤ qtone ^ (2 * n + 1) := by
    apply le_qtone_zpow
    have hcast : (a : ℝ) ^ 24 * 2 ^ (61 : ℕ)
        ≤ (440 : ℝ) ^ 24 * (2 : ℝ) ^ ((2 * n + 62).toNat) * (d : ℝ) ^ 24 := by
      exact_mod_cast h
    have h62 : ((2 : ℝ) ^ ((2 * n + 62).toNat : ℕ)) = (2 : ℝ) ^ ((2 * n + 62) : ℤ) := by
      rw [← zpow_natCast (2 : ℝ)]
      congr 1
      omega
    have hsplit : (2 : ℝ) ^ ((2 * n + 62) : ℤ)
        = (2 : ℝ) ^ ((2 * n + 1) : ℤ) * 2 ^ (61 : ℕ) := by
      rw [← zpow_natCast (2 : ℝ) 61, ← zpow_add₀ two_ne_zero]
      congr 1
      omega
    have key : (a : ℝ) ^ 24 ≤ (440 : ℝ) ^ 24 * (2 : ℝ) ^ ((2 * n + 1) : ℤ) * (d : ℝ) ^ 24 := by
      have h2 : (a : ℝ) ^ 24 * 2 ^ (61 : ℕ)
          ≤ ((440 : ℝ) ^ 24 * (2 : ℝ) ^ ((2 * n + 1) : ℤ) * (d : ℝ) ^ 24) * 2 ^ (61 : ℕ) := by
        calc (a : ℝ) ^ 24 * 2 ^ (61 : ℕ)
            ≤ (440 : ℝ) ^ 24 * (2 : ℝ) ^ ((2 * n + 62) : ℤ) * (d : ℝ) ^ 24 := by
              rw [← h62]; exact hcast
          _ = ((440 : ℝ) ^ 24 * (2 : ℝ) ^ ((2 * n + 1) : ℤ) * (d : ℝ) ^ 24) * 2 ^ (61 : ℕ) := by
              rw [hsplit]; ring
      exact le_of_mul_le_mul_right h2 (by positivity)
    rw [div_div, div_pow, div_le_iff₀ (by positivity)]
    calc (a : ℝ) ^ 24 ≤ (440 : ℝ) ^ 24 * (2 : ℝ) ^ ((2 * n + 1) : ℤ) * (d : ℝ) ^ 24 := key
      _ = (2 : ℝ) ^ ((2 * n + 1) : ℤ) * ((d : ℝ) * 440) ^ 24 := by rw [mul_pow]; ring
  have hm := mul_le_mul_of_nonneg_left hstep (by norm_num : (0 : ℝ) ≤ 440)
  calc (a : ℝ) / d = 440 * ((a : ℝ) / d / 440) := by ring
    _ ≤ 440 * qtone ^ (2 * n + 1) := hm

set_option maxRecDepth 10000 in
/-- The kernel checks the note certificate for every semitone offset the
detector's range can produce (`n ∈ [-30, 15]`). -/
lemma noteCheck_all_list :
    ((List.range 46).all fun k => noteCheck ((k : ℤ) - 30)) = true := by
  decide

/-- The note certificate holds for every offset in `[-30, 15]`. -/
lemma noteCheck_all (n : ℤ) (h1 : -30 ≤ n) (h2 : n ≤ 15) :
    noteCheck n = true := by
  have h := noteCheck_all_list
  rw [List.all_eq_true] at h
  have hk : (n + 30).toNat ∈ List.range 46 := by
    rw [List.mem_range]
    omega
  have h3 := h _ hk
  have he : (((n + 30).toNat : ℤ) - 30) = n := by omega
  rwa [he] at h3

/-- Soundness of the certificate: a passing `noteCheck n` yields the
table frequency for the note name at offset `n`, within half a semitone
of the exact equal-temperament frequency `440·2^(n/12)`. -/
lemma noteCheck_sound (n : ℤ) (hn : -30 ≤ n) (h : noteCheck n = true) :
    ∃ q : ℝ, noteToFrequency (noteNameOf n) = some q ∧
      440 * qtone ^ (2 * n - 1) ≤ q ∧ q ≤ 440 * qtone ^ (2 * n + 1) := by
  unfold noteCheck at h
  cases hfind : NOTE_FREQUENCIES.find? fun p => p.1 == noteNameOf n with
  | none =>
      rw [hfind] at h
      cases h
  | some p =>
      rw [hfind] at h
      simp only [Bool.and_eq_true, decide_eq_true_eq] at h
      obtain ⟨⟨hpos, hle1⟩, hle2⟩ := h
      have hdpos : 0 < p.2.den := p.2.pos
      have hnum : ((p.2.num.toNat : ℤ) : ℝ) = (p.2.num : ℝ) := by
        rw [Int.toNat_of_nonneg hpos.le]
      have hcast : (p.2 : ℝ) = ((p.2.num.toNat : ℕ) : ℝ) / ((p.2.den : ℕ) : ℝ) := by
        rw [Rat.cast_def]
        congr 1
        rw [← hnum]
        push_cast
        rfl
      refine ⟨(p.2 : ℝ), ?_, ?_, ?_⟩
      · unfold noteToFrequency
        rw [hfind]
      · rw [hcast]
        exact lower_bridge n hn _ _ hdpos hle1
      · rw [hcast]
        exact upper_bridge n hn _ _ hdpos hle2

/-- C9: for every frequency in the detector's configured range,
looking the name produced by `frequencyToNote` back up with
`noteToFrequency` succeeds and recovers a frequency within one semitone
(a factor of `2^(1/12)`) of the input. -/
theorem noteRoundTrip (f : ℝ) (h80 : MIN_FREQUENCY ≤ f)
    (h1050 : f ≤ MAX_FREQUENCY) :
    ∃ q : ℝ, noteToFrequency (frequencyToNote f).note = some q ∧
      q ≤ f * semitoneRatio ∧ f ≤ q * semitoneRatio := by
  rw [MIN_FREQUENCY] at h80
  rw [MAX_FREQUENCY] at h1050
  have hf440 : (0 : ℝ) < f / 440 := by positivity
  have hrw : (2 : ℝ) ^ Real.logb 2 (f / 440) = f / 440 :=
    Real.rpow_logb (by norm_num) (by norm_num) hf440
  have hlowL : -(61 : ℝ) / 24 ≤ Real.logb 2 (f / 440) := by
    have h1 : qtone ^ (-61 : ℤ) ≤ (2 : ℝ) ^ Real.logb 2 (f / 440) := by
      rw [hrw]
      calc qtone ^ (-61 : ℤ) ≤ 2 / 11 := qtone_neg61_le
        _ ≤ f / 440 := by
            rw [div_le_div_iff₀ (by norm_num) (by norm_num)]
            linarith
    rw [qtone_zpow_rpow] at h1
    have h2 := (Real.rpow_le_rpow_left_iff (by norm_num : (1 : ℝ) < 2)).mp h1
    push_cast at h2
    linarith
  have hupL : Real.logb 2 (f / 440) < (31 : ℝ) / 24 := by
    have h1 : (2 : ℝ) ^ Real.logb 2 (f / 440) < qtone ^ (31 : ℤ) := by
      rw [hrw]
      calc f / 440 ≤ 1050 / 440 := by gcongr
        _ < qtone ^ (31 : ℤ) := ratio_lt_qtone31
    rw [qtone_zpow_rpow] at h1
    have h2 := (Real.rpow_lt_rpow_left_iff (by norm_num : (1 : ℝ) < 2)).mp h1
    push_cast at h2
    linarith
  have hn30 : -30 ≤ round (12 * Real.logb 2 (f / 440)) := by
    rw [round_eq, Int.le_floor]
    push_cast
    linarith
  have hn15 : round (12 * Real.logb 2 (f / 440)) ≤ 15 := by
    rw [round_eq]
    have h3 : ⌊12 * Real.logb 2 (f / 440) + 1 / 2⌋ < 16 := by
      rw [Int.floor_lt]
      push_cast
      linarith
    omega
  have habs := abs_sub_round (12 * Real.logb 2 (f / 440))
  rw [abs_le] at habs
  have hlow5 : qtone ^ (2 * round (12 * Real.logb 2 (f / 440)) - 1) ≤ f / 440 := by
    have hx : (((2 * round (12 * Real.logb 2 (f / 440)) - 1 : ℤ)) : ℝ) / 24
        ≤ Real.logb 2 (f / 440) := by
      push_cast
      have h1 := habs.2
      linarith
    calc qtone ^ (2 * round (12 * Real.logb 2 (f / 440)) - 1)
        = 2 ^ (((2 * round (12 * Real.logb 2 (f / 440)) - 1 : ℤ) : ℝ) / 24) :=
          qtone_zpow_rpow _
      _ ≤ 2 ^ Real.logb 2 (f / 440) :=
          (Real.rpow_le_rpow_left_iff (by norm_num : (1 : ℝ) < 2)).mpr hx
      _ = f / 440 := hrw
  have hup5 : f / 440 ≤ qtone ^ (2 * round (12 * Real.logb 2 (f / 440)) + 1) := by
    have hx : Real.logb 2 (f / 440)
        ≤ (((2 * round (12 * Real.logb 2 (f / 440)) + 1 : ℤ)) : ℝ) / 24 := by
      push_cast
      have h1 := habs.1
      linarith
    calc f / 440 = 2 ^ Real.logb 2 (f / 440) := hrw.symm
      _ ≤ 2 ^ (((2 * round (12 * Real.logb 2 (f / 440)) + 1 : ℤ) : ℝ) / 24) :=
          (Real.rpow_le_rpow_left_iff (by norm_num : (1 : ℝ) < 2)).mpr hx
      _ = qtone ^ (2 * round (12 * Real.logb 2 (f / 440)) + 1) :=
          (qtone_zpow_rpow _).symm
  obtain ⟨q, hlook, hql, hqu⟩ :=
    noteCheck_sound (round (12 * Real.logb 2 (f / 440))) hn30
      (noteCheck_all _ hn30 hn15)
  have hnote : (frequencyToNote f).note
      = noteNameOf (round (12 * Real.logb 2 (f / 440))) := rfl
  have hsplit : qtone ^ (2 * round (12 * Real.logb 2 (f / 440)) + 1)
      = qtone ^ (2 * round (12 * Real.logb 2 (f / 440)) - 1) * qtone ^ (2 : ℕ) := by
    rw [← zpow_natCast qtone 2, ← zpow_add₀ (ne_of_gt qtone_pos)]
    congr 1
    omega
  have hlowf : 440 * qtone ^ (2 * round (12 * Real.logb 2 (f / 440)) - 1) ≤ f := by
    have hm := mul_le_mul_of_nonneg_left hlow5 (by norm_num : (0 : ℝ) ≤ 440)
    calc (440 : ℝ) * qtone ^ (2 * round (12 * Real.logb 2 (f / 440)) - 1)
        ≤ 440 * (f / 440) := hm
      _ = f := by ring
  have hupf : f ≤ 440 * qtone ^ (2 * round (12 * Real.logb 2 (f / 440)) + 1) := by
    have hm := mul_le_mul_of_nonneg_left hup5 (by norm_num : (0 : ℝ) ≤ 440)
    calc f = 440 * (f / 440) := by ring
      _ ≤ 440 * qtone ^ (2 * round (12 * Real.logb 2 (f / 440)) + 1) := hm
  refine ⟨q, by rw [hnote]; exact hlook, ?_, ?_⟩
  · calc q ≤ 440 * qtone ^ (2 * round (12 * Real.logb 2 (f / 440)) + 1) := hqu
      _ = (440 * qtone ^ (2 * round (12 * Real.logb 2 (f / 440)) - 1)) * qtone ^ (2 : ℕ) := by
          rw [hsplit]; ring
      _ ≤ f * qtone ^ (2 : ℕ) := by
          apply mul_le_mul_of_nonneg_right hlowf (by positivity)
      _ = f * semitoneRatio := by rw [semitoneRatio_sq]
  · calc f ≤ 440 * qtone ^ (2 * round (12 * Real.logb 2 (f / 440)) + 1) := hupf
      _ = (440 * qtone ^ (2 * round (12 * Real.logb 2 (f / 440)) - 1)) * qtone ^ (2 : ℕ) := by
          rw [hsplit]; ring
      _ ≤ q * qtone ^ (2 : ℕ) := by
          apply mul_le_mul_of_nonneg_right hql (by positivity)
      _ = q * semitoneRatio := by rw [semitoneRatio_sq]

/-- C9 witness: the round trip at 440 Hz. -/
theorem noteRoundTrip_witness :
    ∃ q : ℝ, noteToFrequency (frequencyToNote 440).note = some q ∧
      q ≤ 440 * semitoneRatio ∧ (440 : ℝ) ≤ q * semitoneRatio :=
  noteRoundTrip 440 (by rw [MIN_FREQUENCY]; norm_num)
    (by rw [MAX_FREQUENCY]; norm_num)

end CoquiSing
